import Mathlib

/-!
Verification of the OHdio audiobook downloader pipeline (shallow embedding).

The definitions below are translated from the Python sources:
  * `src/src/utils/file_utils.py` (filename sanitisation and formatting),
  * `src/src/utils/network_utils.py` (`safe_request` retry loop),
  * `src/src/scraper/playlist_extractor.py` (media-id extraction and the
    validation-API playlist search),
  * `src/src/scraper/audiobook_scraper.py` (`_extract_metadata` and the
    title/author cascades),
  * `src/archive/python_original/src/scraper/category_scraper.py`
    (`_parse_category_page` de-duplication),
  * `src/src/main.py` (`_process_single_audiobook` statistics bookkeeping).

Modelling conventions:
  * Python strings are Lean `String`s (sequences of code points); `len` is
    `String.length` / `List.length` on `String.data`.
  * External library primitives are modelled explicitly:
    `unicodedata.normalize('NFKD', s)` is modelled as the identity function
    (it is the identity on ASCII data, and idempotent in general);
    Python regular expressions are translated pattern-by-pattern into
    explicit scanning functions; case-insensitive matching is modelled by a
    case fold covering ASCII and the Latin-1 letter block, which is exact on
    every character the translated patterns can consume.
  * `requests` / `aiohttp` responses are inputs of the model: an HTTP
    exchange is an oracle from attempt number to response outcome, and the
    JSON body of the validation API is an explicit JSON value.
  * Exceptions raised and caught inside a translated function are modelled
    with `Option`: `none` stands for the Python path in which an exception
    was raised and swallowed (every such path returns `None` in the source).
-/

namespace Ohdio

/-! ## Character primitives -/

/-- Whitespace recognised by Python's `str.strip()` / `\s` (ASCII part). -/
def isSpaceChar (c : Char) : Bool :=
  c = ' ' || c = '\t' || c = '\n' || c = '\r' || c = '\x0b' || c = '\x0c'

/-- Case fold used to model `re.IGNORECASE` and `str.lower()`:
ASCII `A`-`Z` and the Latin-1 uppercase block `À`-`Þ` (except `×`) map to
their lowercase forms; everything else is fixed. -/
def pyLowerChar (c : Char) : Char :=
  let n := c.toNat
  if 0x41 ≤ n ∧ n ≤ 0x5a then Char.ofNat (n + 32)
  else if 0xc0 ≤ n ∧ n ≤ 0xde ∧ n ≠ 0xd7 then Char.ofNat (n + 32)
  else c

/-- Python `str.lower()` on the modelled character range. -/
def pyLower (s : String) : String := ⟨s.data.map pyLowerChar⟩

/-- Python `str.isupper()` for a single character, on the modelled range:
ASCII `A`-`Z` or Latin-1 `À`-`Þ` (except `×`). -/
def pyUpperChar (c : Char) : Bool :=
  let n := c.toNat
  (0x41 ≤ n && n ≤ 0x5a) || (0xc0 ≤ n && n ≤ 0xde && n ≠ 0xd7)

/-- ASCII letter (`[A-Za-z]`). -/
def isAsciiLetterChar (c : Char) : Bool :=
  ('a' ≤ c && c ≤ 'z') || ('A' ≤ c && c ≤ 'Z')

/-- ASCII digit (`\d` in the translated patterns). -/
def isDigitChar (c : Char) : Bool := '0' ≤ c && c ≤ '9'

/-- Strip characters satisfying `p` from both ends of a list
(Python `str.strip(chars)`). -/
def pyStripChars (p : Char → Bool) (l : List Char) : List Char :=
  ((l.dropWhile p).reverse.dropWhile p).reverse

/-- Python `str.strip()` (default whitespace). -/
def pyStrip (s : String) : String := ⟨pyStripChars isSpaceChar s.data⟩

/-- Python `needle in hay` for strings (substring test). -/
def isSubstringList (needle hay : List Char) : Bool :=
  if needle.isPrefixOf hay then true
  else
    match hay with
    | [] => false
    | _ :: t => isSubstringList needle t

/-- Python `needle in hay` for strings. -/
def pyInStr (needle hay : String) : Bool := isSubstringList needle.data hay.data

/-- Python `str.split()`: split on whitespace runs, dropping empty pieces. -/
def pySplitGo (acc : List Char) : List Char → List (List Char)
  | [] => if acc.isEmpty then [] else [acc.reverse]
  | c :: rest =>
    if isSpaceChar c then
      if acc.isEmpty then pySplitGo [] rest else acc.reverse :: pySplitGo [] rest
    else pySplitGo (c :: acc) rest

/-- Python `str.split()` as strings. -/
def pySplit (s : String) : List String := (pySplitGo [] s.data).map List.asString

/-- Python truthiness of an optional string (`None` and `""` are falsy). -/
def optStrTruthy : Option String → Bool
  | none => false
  | some s => !s.isEmpty

/-- Python `s.endswith(suffixStr)`. -/
def pyEndsWith (s suffixStr : String) : Bool :=
  suffixStr.data.reverse.isPrefixOf s.data.reverse

/-- Python `s.startswith(t)`. -/
def pyStartsWith (s t : String) : Bool := t.data.isPrefixOf s.data

/-- Python `s.split('\n')` (empty pieces kept). -/
def splitLinesGo (acc : List Char) : List Char → List String
  | [] => [acc.reverse.asString]
  | c :: rest =>
    if c = '\n' then acc.reverse.asString :: splitLinesGo [] rest
    else splitLinesGo (c :: acc) rest

/-- Python `s.split('\n')`. -/
def splitLines (s : String) : List String := splitLinesGo [] s.data

/-! ## `src/src/utils/file_utils.py` -/

/-- Invalid filename characters replaced by `_`
(`re.sub(r'[<>:"|?*\\\/]', '_', filename)`). -/
def invalidFilenameChar (c : Char) : Bool :=
  c = '<' || c = '>' || c = ':' || c = '"' || c = '|' || c = '?' || c = '*' ||
  c = '\\' || c = '/'

/-- Control characters removed by `re.sub(r'[\x00-\x1f\x7f-\x9f]', '', ·)`. -/
def controlChar (c : Char) : Bool :=
  c.toNat ≤ 0x1f || (0x7f ≤ c.toNat && c.toNat ≤ 0x9f)

/-- Character class of `re.sub(r'[ _]+', '_', ·)`. -/
def spaceUnderscore (c : Char) : Bool := c = ' ' || c = '_'

/-- Replace every run of spaces/underscores by a single underscore
(`re.sub(r'[ _]+', '_', ·)`).  The flag records whether the previous
character belonged to the run being replaced. -/
def collapseGo (inRun : Bool) : List Char → List Char
  | [] => []
  | c :: rest =>
    if spaceUnderscore c then
      if inRun then collapseGo true rest else '_' :: collapseGo true rest
    else c :: collapseGo false rest

/-- Characters stripped by `filename.strip(' .')`. -/
def stripSpaceDot (c : Char) : Bool := c = ' ' || c = '.'

/-- Python `filename.rsplit('.', 1)` restricted to the case a dot exists:
returns `(name, ext)` split at the last dot. -/
def rsplitExt (l : List Char) : Option (List Char × List Char) :=
  let r := l.reverse
  let extR := r.takeWhile (· ≠ '.')
  if extR.length = r.length then none
  else some ((r.drop (extR.length + 1)).reverse, extR.reverse)

/-- Truncation step of `sanitize_filename`: if the name is longer than
`maxLength`, keep a valid short extension (≤ 10 characters after the last
dot) and cut the stem, otherwise cut the whole name. -/
def truncateFilename (maxLength : Nat) (l : List Char) : List Char :=
  if l.length ≤ maxLength then l
  else
    match rsplitExt l with
    | some (name, ext) =>
      if ext.length ≤ 10 then name.take (maxLength - ext.length - 1) ++ '.' :: ext
      else l.take maxLength
    | none => l.take maxLength

/-- Body of `sanitize_filename` on the character list.
`unicodedata.normalize('NFKD', ·)` is modelled as the identity (see header). -/
def sanitizeChars (maxLength : Nat) (l : List Char) : List Char :=
  let l1 := l.map (fun c => if invalidFilenameChar c then '_' else c)
  let l2 := l1.filter (fun c => !controlChar c)
  let l3 := collapseGo false l2
  let l4 := pyStripChars stripSpaceDot l3
  let l5 := if l4.isEmpty then "untitled".data else l4
  truncateFilename maxLength l5

/-- `sanitize_filename(filename, max_length=255)`. -/
def sanitize_filename (filename : String) (max_length : Nat := 255) : String :=
  ⟨sanitizeChars max_length filename.data⟩

/-- `format_audiobook_filename(title, author, extension="mp3")`:
`"<author> - <title>.<extension>"`, sanitised. -/
def format_audiobook_filename (title author : String)
    (extension : String := "mp3") : String :=
  let t := pyStrip title
  let a := pyStrip author
  let t := if t.isEmpty then "Unknown Title" else t
  let a := if a.isEmpty then "Unknown Author" else a
  sanitize_filename (a ++ " - " ++ t ++ "." ++ extension)

/-! ## JSON values and the validation API
(`src/src/scraper/playlist_extractor.py`, `get_playlist_from_api`) -/


mutual

inductive JVal where
  | str (s : String)
  | num (n : Int)
  | bool (b : Bool)
  | null
  | arr (xs : JArr)
  | obj (fields : JObj)

inductive JArr where
  | nil
  | cons (v : JVal) (rest : JArr)

inductive JObj where
  | nil
  | cons (key : String) (v : JVal) (rest : JObj)

end

/-- Python dict membership `k in fields` (JSON objects have unique keys). -/
def jHasKey (k : String) : JObj → Bool
  | .nil => false
  | .cons key _ rest => key == k || jHasKey k rest

/-- Python dict lookup `fields[k]` (first binding). -/
def jGet (k : String) : JObj → Option JVal
  | .nil => none
  | .cons key v rest => if key == k then some v else jGet k rest

/-- Elements of a JSON array as a Lean list. -/
def jarrToList : JArr → List JVal
  | .nil => []
  | .cons v rest => v :: jarrToList rest

/-- Python `k in xs` for a list: some element equals the string `k`. -/
def jarrHasStr (k : String) : JArr → Bool
  | .nil => false
  | .cons (.str s) rest => s == k || jarrHasStr k rest
  | .cons _ rest => jarrHasStr k rest

/-- Python `k in v` for an arbitrary value; `none` models a `TypeError`
(membership on a number, boolean or `None`). -/
def pyContains (k : String) : JVal → Option Bool
  | .obj fields => some (jHasKey k fields)
  | .arr xs => some (jarrHasStr k xs)
  | .str s => some (pyInStr k s)
  | _ => none

/-- Python `v[k]` with a string key; `none` models a `TypeError`
(string/list subscripted by a string). -/
def pyGetItem (k : String) : JVal → Option JVal
  | .obj fields => jGet k fields
  | _ => none

/-- Python truthiness of a JSON value. -/
def jTruthy : JVal → Bool
  | .str s => !s.isEmpty
  | .num n => n != 0
  | .bool b => b
  | .null => false
  | .arr xs => match xs with | .nil => false | _ => true
  | .obj fields => match fields with | .nil => false | _ => true

/-- Python `if url and url.endswith('.m3u8'): return url`.
`some (some s)`: the branch returns `s`; `some none`: the condition is
false and control falls through; `none`: `AttributeError` (a truthy
non-string has no `endswith`). -/
def endswithCheck (v : JVal) : Option (Option String) :=
  if jTruthy v then
    match v with
    | .str s => some (if pyEndsWith s ".m3u8" then some s else none)
    | _ => none
  else some none

/-- Python `for result in v`; `none` models a `TypeError` (iterating a
number, boolean or `None`).  Iterating a dict yields its keys, iterating a
string yields its one-character substrings. -/
def jobjKeys : JObj → List JVal
  | .nil => []
  | .cons key _ rest => .str key :: jobjKeys rest

/-- Python `for result in v` (see `jobjKeys`). -/
def pyIter : JVal → Option (List JVal)
  | .arr xs => some (jarrToList xs)
  | .obj fields => some (jobjKeys fields)
  | .str s => some (s.data.map (fun c => .str (String.singleton c)))
  | _ => none

/-- The `validationResults` loop of `get_playlist_from_api`.
`some (some s)`: a result entry produced the URL `s`; `some none`: the
loop finished without returning; `none`: an exception was raised. -/
def vrLoop : List JVal → Option (Option String)
  | [] => some none
  | r :: rest =>
    match pyContains "url" r with
    | none => none
    | some false => vrLoop rest
    | some true =>
      match pyGetItem "url" r with
      | none => none
      | some u =>
        match endswithCheck u with
        | none => none
        | some (some s) => some (some s)
        | some none => vrLoop rest

/-! Translation of the inner `find_m3u8_recursive` of
`get_playlist_from_api`: dict values that are strings ending in `.m3u8`
are returned; dict and list values are searched recursively; any other
value (in particular a string that is a list element or the root) yields
nothing. -/
mutual

def find_m3u8_recursive : JVal → Option String
  | .obj fields => find_m3u8_fields fields
  | .arr xs => find_m3u8_list xs
  | _ => none

def find_m3u8_fields : JObj → Option String
  | .nil => none
  | .cons _ v rest =>
    match v with
    | .str s => if pyEndsWith s ".m3u8" then some s else find_m3u8_fields rest
    | .obj gs =>
      match find_m3u8_fields gs with
      | some r => some r
      | none => find_m3u8_fields rest
    | .arr xs =>
      match find_m3u8_list xs with
      | some r => some r
      | none => find_m3u8_fields rest
    | _ => find_m3u8_fields rest

def find_m3u8_list : JArr → Option String
  | .nil => none
  | .cons v rest =>
    match find_m3u8_recursive v with
    | some r => some r
    | none => find_m3u8_list rest

end

/-- The `if 'url' in data` step of `get_playlist_from_api`
(`step1` of the translated control flow).  `some (some s)`: the step
returns `s`; `some none`: control falls through; `none`: an exception was
raised. -/
def apiStep1 (data : JVal) : Option (Option String) :=
  match pyContains "url" data with
  | none => none
  | some true =>
    match pyGetItem "url" data with
    | none => none
    | some u => endswithCheck u
  | some false => some none

/-- The `if 'validationResults' in data` step of `get_playlist_from_api`
(`step2` of the translated control flow). -/
def apiStep2 (data : JVal) : Option (Option String) :=
  match pyContains "validationResults" data with
  | none => none
  | some true =>
    match pyGetItem "validationResults" data with
    | none => none
    | some vr =>
      match pyIter vr with
      | none => none
      | some items => vrLoop items
  | some false => some none

/-- Search performed by `get_playlist_from_api` on a successfully parsed
JSON body.  The whole body runs inside `try ... except Exception`, so any
modelled exception (`none` from a step) makes the function return `None`;
the control flow mirrors the source: top-level `url` check, then the
`validationResults` loop, then `find_m3u8_recursive`. -/
def get_playlist_from_api_data (data : JVal) : Option String :=
  match apiStep1 data with
  | none => none
  | some (some s) => some s
  | some none =>
    match apiStep2 data with
    | none => none
    | some (some s) => some s
    | some none => find_m3u8_recursive data

/-- Behaviour of one call to the validation API, as observed by
`get_playlist_from_api`: the request may fail at transport level, return a
non-2xx status (`raise_for_status`), return unparsable JSON, or return a
parsed JSON value. -/
inductive ApiBehavior where
  | networkError
  | httpError
  | malformedJson
  | ok (data : JVal)

/-- `get_playlist_from_api(media_id)`: every failure branch is caught and
returns `None`; a parsed body is searched by `get_playlist_from_api_data`. -/
def get_playlist_from_api : ApiBehavior → Option String
  | .networkError => none
  | .httpError => none
  | .malformedJson => none
  | .ok data => get_playlist_from_api_data data

/-! Specification-side definitions for claim C3 (following the spec's
words, to be compared with the translated code).

`specFindM3u8` is the spec's reading of the third search clause: a
depth-first search of the entire response structure for any string value
ending in `.m3u8` (note: unlike `find_m3u8_recursive`, this also sees
strings that are list elements or the root value). -/
mutual

def specFindM3u8 : JVal → Option String
  | .str s => if pyEndsWith s ".m3u8" then some s else none
  | .obj fields => specFindM3u8Fields fields
  | .arr xs => specFindM3u8List xs
  | _ => none

def specFindM3u8Fields : JObj → Option String
  | .nil => none
  | .cons _ v rest =>
    match specFindM3u8 v with
    | some r => some r
    | none => specFindM3u8Fields rest

def specFindM3u8List : JArr → Option String
  | .nil => none
  | .cons v rest =>
    match specFindM3u8 v with
    | some r => some r
    | none => specFindM3u8List rest

end

/-- Specification reading of the first search clause: a top-level `url`
value ending in `.m3u8`. -/
def specTopUrl : JVal → Option String
  | .obj fields =>
    match jGet "url" fields with
    | some (.str s) => if pyEndsWith s ".m3u8" then some s else none
    | _ => none
  | _ => none

/-- Specification reading of the second search clause, over the entries of
`validationResults` in list order. -/
def specVrList : JArr → Option String
  | .nil => none
  | .cons (.obj gs) rest =>
    (match jGet "url" gs with
     | some (.str s) => if pyEndsWith s ".m3u8" then some s else none
     | _ => none).orElse (fun _ => specVrList rest)
  | .cons _ rest => specVrList rest

/-- Specification reading of the second search clause. -/
def specValidationResults : JVal → Option String
  | .obj fields =>
    match jGet "validationResults" fields with
    | some (.arr xs) => specVrList xs
    | _ => none
  | _ => none

/-- The priority order stated by the spec for claim C3. -/
def apiSpecPriority (data : JVal) : Option String :=
  (specTopUrl data).orElse fun _ =>
    (specValidationResults data).orElse fun _ => specFindM3u8 data

/-- The priority order with the third clause replaced by the code's own
depth-first search (the amended reading of claim C3). -/
def apiAmendedPriority (data : JVal) : Option String :=
  (specTopUrl data).orElse fun _ =>
    (specValidationResults data).orElse fun _ => find_m3u8_recursive data

/-- Field value that is a string, `null`, or absent. -/
def strOrNullOpt : Option JVal → Bool
  | none => true
  | some (.str _) => true
  | some .null => true
  | some _ => false

/-- Entry check for `validationResults` in `wfResp`: an object whose `url`
field, if present, is a string or `null`. -/
def wfVrEntries : JArr → Bool
  | .nil => true
  | .cons (.obj gs) rest => strOrNullOpt (jGet "url" gs) && wfVrEntries rest
  | .cons _ _ => false

/-- Well-formed validation-API response (hypothesis of the amended C3):
an object whose `url` field, if present, is a string or `null`, and whose
`validationResults` field, if present, is a list of objects each of whose
`url` fields, if present, is a string or `null`. -/
def wfResp : JVal → Bool
  | .obj fields =>
    strOrNullOpt (jGet "url" fields) &&
    (match jGet "validationResults" fields with
     | none => true
     | some (.arr xs) => wfVrEntries xs
     | some _ => false)
  | _ => false

/-! ## HTML model

A parsed page (`BeautifulSoup(page_content, 'html.parser')`) is modelled as
a forest of element/text nodes.  The raw page string handed to the playlist
extractor is recovered by rendering the forest (i.e. parsing is assumed to
round-trip on the modelled pages).  `select_one`/`find_all` return matches
in document (pre-)order, as BeautifulSoup does. -/

mutual

inductive HNode where
  | elem (tag : String) (attrs : List (String × String)) (children : HForest)
  | htext (s : String)

inductive HForest where
  | nil
  | cons (n : HNode) (f : HForest)

end

/-- Attribute lookup `element.get(name)`. -/
def getAttr (n : HNode) (name : String) : Option String :=
  match n with
  | .elem _ attrs _ => (attrs.find? (fun p => p.1 == name)).map (·.2)
  | .htext _ => none

/-- Tag name of an element (`element.name`); text nodes have none. -/
def tagOf : HNode → String
  | .elem t _ _ => t
  | .htext _ => ""

mutual

/-- All nodes of a subtree in document (pre-)order. -/
def nodePre : HNode → List HNode
  | .htext s => [.htext s]
  | .elem t a c => .elem t a c :: forestPre c

/-- All nodes of a forest in document (pre-)order. -/
def forestPre : HForest → List HNode
  | .nil => []
  | .cons n f => nodePre n ++ forestPre f

end

mutual

/-- Text-node strings of a subtree, in document order. -/
def nodeTexts : HNode → List String
  | .htext s => [s]
  | .elem _ _ c => forestTexts c

/-- Text-node strings of a forest, in document order. -/
def forestTexts : HForest → List String
  | .nil => []
  | .cons n f => nodeTexts n ++ forestTexts f

end

/-- Serialisation of an attribute list (used by `str(soup)`). -/
def renderAttrs : List (String × String) → String
  | [] => ""
  | (k, v) :: rest => " " ++ k ++ "=\"" ++ v ++ "\"" ++ renderAttrs rest

mutual

/-- Serialisation of a node (`str(soup)`). -/
def renderNode : HNode → String
  | .htext s => s
  | .elem t a c => "<" ++ t ++ renderAttrs a ++ ">" ++ renderForest c ++ "</" ++ t ++ ">"

/-- Serialisation of a forest (`str(soup)` / the raw page string). -/
def renderForest : HForest → String
  | .nil => ""
  | .cons n f => renderNode n ++ renderForest f

end

/-- `element.get_text()`: concatenation of all contained strings. -/
def get_text (n : HNode) : String := String.join (nodeTexts n)

/-- `soup.get_text()` over the whole page. -/
def get_text_forest (f : HForest) : String := String.join (forestTexts f)

/-- `element.get_text(strip=True)`: concatenation of the stripped contained
strings, skipping those that strip to empty. -/
def get_text_strip (n : HNode) : String :=
  String.join (((nodeTexts n).map pyStrip).filter (fun s => !s.isEmpty))

/-- The CSS selector forms used by the translated call sites. -/
inductive Selector where
  | tag (name : String)
  | cls (name : String)
  | attrPresent (name : String)
  | tagAttrEq (tagName attr value : String)
  | clsAttr (clsName attr : String)

/-- Whitespace-separated tokens of an element's `class` attribute. -/
def classTokens (n : HNode) : List String :=
  match getAttr n "class" with
  | some v => pySplit v
  | none => []

/-- Selector matching (elements only, as in BeautifulSoup). -/
def selMatches (sel : Selector) (n : HNode) : Bool :=
  match n with
  | .htext _ => false
  | .elem t _ _ =>
    match sel with
    | .tag name => t == name
    | .cls name => (classTokens n).contains name
    | .attrPresent a => (getAttr n a).isSome
    | .tagAttrEq tg a v => t == tg && getAttr n a == some v
    | .clsAttr c a => (classTokens n).contains c && (getAttr n a).isSome

/-- `soup.select_one(selector)`: first match in document order. -/
def select_one (soup : HForest) (sel : Selector) : Option HNode :=
  (forestPre soup).find? (selMatches sel)

/-- `soup.select(selector)` / `soup.find_all(...)`: all matches in document
order. -/
def selectAll (soup : HForest) (sel : Selector) : List HNode :=
  (forestPre soup).filter (selMatches sel)

/-- `element.string`: the single contained string, traversing single-child
chains, as in BeautifulSoup. -/
def nodeString : HNode → Option String
  | .htext s => some s
  | .elem _ _ (.cons child .nil) => nodeString child
  | .elem _ _ _ => none

/-! ## Title extraction
(`src/src/scraper/audiobook_scraper.py`, `_extract_title` / `_clean_title`) -/

/-- Selector cascade of `_extract_title`. -/
def title_selectors : List Selector :=
  [.tag "h1", .cls "title", .cls "book-title", .cls "audiobook-title",
   .attrPresent "data-title", .tagAttrEq "meta" "property" "og:title",
   .tag "title"]

/-- Site-name suffixes removed by `_clean_title`. -/
def title_suffixes : List String :=
  [" | ICI OHdio", " | Radio-Canada", " - OHdio", " - Radio-Canada",
   " - Livre audio"]

/-- One pass of the suffix-removal loop of `_clean_title`. -/
def removeSuffixIf (s suf : String) : String :=
  if pyEndsWith s suf then s.dropRight suf.length else s

/-- `_clean_title`. -/
def clean_title (t : String) : String :=
  pyStrip (title_suffixes.foldl removeSuffixIf t)

/-- Extraction of a candidate string from a matched element: `meta`
elements contribute their `content` attribute, anything else its stripped
text. -/
def elementText (el : HNode) : Option String :=
  if tagOf el == "meta" then getAttr el "content" else some (get_text_strip el)

/-- Selector loop of `_extract_title`: first selector whose element yields
a usable (> 2 characters, non-empty after cleaning) title wins. -/
def tryTitleSelectors (soup : HForest) : List Selector → Option String
  | [] => none
  | sel :: rest =>
    match select_one soup sel with
    | none => tryTitleSelectors soup rest
    | some el =>
      match elementText el with
      | none => tryTitleSelectors soup rest
      | some s =>
        if 2 < s.length then
          let c := clean_title s
          if c.isEmpty then tryTitleSelectors soup rest else some c
        else tryTitleSelectors soup rest

/-- `_extract_title`. -/
def extract_title (soup : HForest) : Option String :=
  tryTitleSelectors soup title_selectors

/-! ## Author extraction
(`src/src/scraper/audiobook_scraper.py`, `_extract_author` / `_clean_author`) -/

/-- Selector cascade of `_extract_author`. -/
def author_selectors : List Selector :=
  [.cls "author", .cls "book-author", .cls "by-author",
   .attrPresent "data-author", .tagAttrEq "meta" "name" "author",
   .tagAttrEq "meta" "property" "book:author"]

/-- Markers removed by `_clean_author` (first match, then stop). -/
def author_markers : List String := ["par ", "by ", "de ", "auteur: "]

/-- Marker-removal loop of `_clean_author`. -/
def dropAuthorMarker (a : String) : List String → String
  | [] => a
  | p :: rest => if pyStartsWith (pyLower a) p then a.drop p.length else dropAuthorMarker a rest

/-- `_clean_author`. -/
def clean_author (a : String) : String := pyStrip (dropAuthorMarker a author_markers)

/-- Selector loop of `_extract_author`. -/
def tryAuthorSelectors (soup : HForest) : List Selector → Option String
  | [] => none
  | sel :: rest =>
    match select_one soup sel with
    | none => tryAuthorSelectors soup rest
    | some el =>
      match elementText el with
      | none => tryAuthorSelectors soup rest
      | some s =>
        if 1 < s.length then
          let c := clean_author s
          if c.isEmpty then tryAuthorSelectors soup rest else some c
        else tryAuthorSelectors soup rest

/-- Character class `[a-zA-ZÀ-ÿ\s\-\']` of the author-capture patterns. -/
def authorClassChar (c : Char) : Bool :=
  isAsciiLetterChar c || (0xc0 ≤ c.toNat && c.toNat ≤ 0xff) || isSpaceChar c ||
  c = '-' || c = '\''

/-- Consume a literal pattern case-insensitively; returns the remainder. -/
def ciConsume : List Char → List Char → Option (List Char)
  | [], l => some l
  | _ :: _, [] => none
  | p :: ps, c :: cs => if pyLowerChar c = pyLowerChar p then ciConsume ps cs else none

/-- Pattern piece `\s+`: at least one whitespace character, consumed
greedily. -/
def wsPlus : List Char → Option (List Char)
  | [] => none
  | c :: cs => if isSpaceChar c then some (cs.dropWhile isSpaceChar) else none

/-- Capture tail of `([A-Z][a-zA-ZÀ-ÿ\s\-\']+?)<`: lazily accumulate class
characters (at least one) until a literal `<`. -/
def capHtmlGo (acc : List Char) : List Char → Option (List Char)
  | [] => none
  | c :: rest =>
    if c = '<' then if acc.isEmpty then none else some acc.reverse
    else if authorClassChar c then capHtmlGo (c :: acc) rest
    else none

/-- Capture group `([A-Z][a-zA-ZÀ-ÿ\s\-\']+?)` before `<`; with
`re.IGNORECASE`, `[A-Z]` matches any ASCII letter. -/
def capHtml : List Char → Option (List Char)
  | [] => none
  | c :: rest =>
    if isAsciiLetterChar c then (capHtmlGo [] rest).map (fun g => c :: g) else none

/-- Tail `Écrit\s+par\s+(capture)<` of both HTML author patterns. -/
def ecritParTail (l : List Char) : Option (List Char) :=
  (ciConsume "écrit".data l).bind fun l1 =>
    (wsPlus l1).bind fun l2 =>
      (ciConsume "par".data l2).bind fun l3 =>
        (wsPlus l3).bind capHtml

/-- First match of HTML pattern `>Écrit\s+par\s+([A-Z][a-zA-ZÀ-ÿ\s\-\']+?)<`
(`re.search` scans positions left to right; a match must start at `>`). -/
def searchEcritParHtml : List Char → Option (List Char)
  | [] => none
  | c :: rest =>
    if c = '>' then
      match ecritParTail rest with
      | some g => some g
      | none => searchEcritParHtml rest
    else searchEcritParHtml rest

/-- Attempt of pattern
`class="[^"]*animator[^"]*">Écrit\s+par\s+(capture)<` at one position. -/
def animatorAt (l : List Char) : Option (List Char) :=
  (ciConsume "class=\"".data l).bind fun l1 =>
    let seg := l1.takeWhile (· ≠ '"')
    match l1.drop seg.length with
    | '"' :: '>' :: l4 =>
      if isSubstringList "animator".data (seg.map pyLowerChar) then ecritParTail l4
      else none
    | _ => none

/-- First match of the `animator` HTML author pattern. -/
def searchAnimator : List Char → Option (List Char)
  | [] => none
  | c :: rest =>
    match animatorAt (c :: rest) with
    | some g => some g
    | none => searchAnimator rest

/-- Character class kept by the cleanup `re.sub(r'[^\w\s\-\'À-ÿ]', '', ·)`;
`\w` is modelled as ASCII alphanumerics plus underscore (the Latin-1
letters are kept by the explicit `À-ÿ` range). -/
def authorWordChar (c : Char) : Bool :=
  isAsciiLetterChar c || isDigitChar c || c = '_' || isSpaceChar c ||
  c = '-' || c = '\'' || (0xc0 ≤ c.toNat && c.toNat ≤ 0xff)

/-- Cleanup and validation shared by the author patterns: strip the
disallowed characters, normalise whitespace, and require 1-3 words of
total length 2-50. -/
def authorCleanup (g : List Char) : Option String :=
  let filtered := g.filter authorWordChar
  let words := pySplitGo [] filtered
  let a := String.intercalate " " (words.map List.asString)
  if 1 ≤ words.length ∧ words.length ≤ 3 ∧ 2 ≤ a.length ∧ a.length ≤ 50 then
    some a
  else none

/-- Capture tail of `([A-Z][a-zA-ZÀ-ÿ\s\-\']+?)(?:\s|$)`: lazily accumulate
class characters (at least one) until whitespace or the end of input. -/
def capTextGo (acc : List Char) : List Char → Option (List Char)
  | [] => if acc.isEmpty then none else some acc.reverse
  | c :: rest =>
    if !acc.isEmpty && isSpaceChar c then some acc.reverse
    else if authorClassChar c then capTextGo (c :: acc) rest
    else none

/-- Capture group of the text author patterns. -/
def capText : List Char → Option (List Char)
  | [] => none
  | c :: rest =>
    if isAsciiLetterChar c then (capTextGo [] rest).map (fun g => c :: g) else none

/-- Key of text pattern `Écrit\s+par\s+...`. -/
def textKeyEcrit (l : List Char) : Option (List Char) :=
  (ciConsume "écrit".data l).bind fun l1 =>
    (wsPlus l1).bind fun l2 =>
      (ciConsume "par".data l2).bind wsPlus

/-- Pattern piece `[:\s]+` of the `auteur` text pattern. -/
def colonWsPlus : List Char → Option (List Char)
  | [] => none
  | c :: cs =>
    if c = ':' || isSpaceChar c then
      some (cs.dropWhile (fun d => d = ':' || isSpaceChar d))
    else none

/-- Key of text pattern `auteur[:\s]+...`. -/
def textKeyAuteur (l : List Char) : Option (List Char) :=
  (ciConsume "auteur".data l).bind colonWsPlus

/-- Key of text pattern `by\s+...`. -/
def textKeyBy (l : List Char) : Option (List Char) :=
  (ciConsume "by".data l).bind wsPlus

/-- Key of text pattern `de\s+...`. -/
def textKeyDe (l : List Char) : Option (List Char) :=
  (ciConsume "de".data l).bind wsPlus

/-- `re.search` for one text pattern: first position where the key and the
capture both match. -/
def searchTextPat (key : List Char → Option (List Char)) :
    List Char → Option (List Char)
  | [] => none
  | c :: rest =>
    match (key (c :: rest)).bind capText with
    | some g => some g
    | none => searchTextPat key rest

/-- Validation of a text-pattern capture: the shared cleanup plus the
requirement that every word starts with an uppercase letter. -/
def textPatValidate (g : List Char) : Option String :=
  (authorCleanup g).bind fun a =>
    if (pySplit a).all (fun w =>
        match w.data with
        | c :: _ => pyUpperChar c
        | [] => true) then
      some a
    else none

/-- Python `str.title()` for one word of the line fallback: uppercase every
letter not preceded by a letter. -/
def pyTitleGo (prevAlpha : Bool) : List Char → List Char
  | [] => []
  | c :: rest =>
    let n := c.toNat
    let isAlpha := isAsciiLetterChar c ||
      (0xc0 ≤ n && n ≤ 0xff && n ≠ 0xd7 && n ≠ 0xf7)
    let up :=
      if isAlpha && !prevAlpha then
        if 0x61 ≤ n ∧ n ≤ 0x7a then Char.ofNat (n - 32)
        else if 0xe0 ≤ n ∧ n ≤ 0xfe ∧ n ≠ 0xf7 then Char.ofNat (n - 32)
        else if n = 0xff then Char.ofNat 0x178
        else c
      else c
    up :: pyTitleGo isAlpha rest

/-- Python `word.title()`. -/
def pyTitle (w : List Char) : List Char := pyTitleGo false w

/-- Part of a lowered line after the first occurrence of a keyword
(`line.lower().split(keyword, 1)[1]`). -/
def splitAfterFirst (needle : List Char) : List Char → Option (List Char)
  | [] => none
  | c :: rest =>
    if needle.isPrefixOf (c :: rest) then some ((c :: rest).drop needle.length)
    else splitAfterFirst needle rest

/-- Keywords that make the line fallback consider a line. -/
def fallback_keywords : List String := ["par ", "by ", "auteur"]

/-- Keywords split on by the line fallback, in order. -/
def fallback_split_keywords : List String := ["par ", "by ", "auteur: ", "de "]

/-- Inner keyword loop of the line fallback of `_extract_author`. -/
def tryLineKeywords (lineLower : String) : List String → Option String
  | [] => none
  | k :: rest =>
    if pyInStr k lineLower then
      match splitAfterFirst k.data lineLower.data with
      | some tail =>
        let author := pyStripChars isSpaceChar tail
        let words := (pySplitGo [] author).take 3
        if 1 ≤ words.length then
          some (String.intercalate " " (words.map (fun w => (pyTitle w).asString)))
        else tryLineKeywords lineLower rest
      | none => tryLineKeywords lineLower rest
    else tryLineKeywords lineLower rest

/-- Line loop of the fallback phase of `_extract_author`. -/
def tryFallbackLines : List String → Option String
  | [] => none
  | line :: rest =>
    let l := pyStrip line
    if 5 < l.length ∧ l.length < 50 then
      if fallback_keywords.any (fun k => pyInStr k (pyLower l)) then
        match tryLineKeywords (pyLower l) fallback_split_keywords with
        | some a => some a
        | none => tryFallbackLines rest
      else tryFallbackLines rest
    else tryFallbackLines rest

/-- `_extract_author`: selector cascade, then the two HTML patterns over
the serialised page, then the four text patterns over the page text, then
the keyword line fallback. -/
def extract_author (soup : HForest) : Option String :=
  match tryAuthorSelectors soup author_selectors with
  | some a => some a
  | none =>
    let html := (renderForest soup).data
    match (searchEcritParHtml html).bind authorCleanup with
    | some a => some a
    | none =>
      match (searchAnimator html).bind authorCleanup with
      | some a => some a
      | none =>
        let text := (get_text_forest soup).data
        match (searchTextPat textKeyEcrit text).bind textPatValidate with
        | some a => some a
        | none =>
          match (searchTextPat textKeyAuteur text).bind textPatValidate with
          | some a => some a
          | none =>
            match (searchTextPat textKeyBy text).bind textPatValidate with
            | some a => some a
            | none =>
              match (searchTextPat textKeyDe text).bind textPatValidate with
              | some a => some a
              | none =>
                tryFallbackLines (splitLines (get_text_forest soup))

/-! ## Media-id extraction
(`src/src/scraper/playlist_extractor.py`, `extract_media_id`) -/

/-- Word character for `\b` boundaries (`\w` modelled as ASCII
alphanumerics, underscore, and Latin-1 letters). -/
def wordChar (c : Char) : Bool :=
  isAsciiLetterChar c || isDigitChar c || c = '_' ||
  (0xc0 ≤ c.toNat && c.toNat ≤ 0xff && c.toNat ≠ 0xd7 && c.toNat ≠ 0xf7)

/-- Generic `re.search`/`findall`-first scan: try an anchored attempt at
every position, left to right. -/
def scanFirst (attempt : List Char → Option (List Char)) :
    List Char → Option (List Char)
  | [] => none
  | c :: rest =>
    match attempt (c :: rest) with
    | some g => some g
    | none => scanFirst attempt rest

/-- Attempt of pattern `"mediaId"\s*:\s*"([^"]+)"` at one position. -/
def mediaIdQuotedAt (l : List Char) : Option (List Char) :=
  (ciConsume "\"mediaid\"".data l).bind fun l1 =>
    match l1.dropWhile isSpaceChar with
    | ':' :: l3 =>
      match l3.dropWhile isSpaceChar with
      | '"' :: l5 =>
        let g := l5.takeWhile (· ≠ '"')
        match l5.drop g.length with
        | '"' :: _ => if g.isEmpty then none else some g
        | _ => none
      | _ => none
    | _ => none

/-- Attempt of pattern `"mediaId"\s*:\s*(\d+)` at one position. -/
def mediaIdNumAt (l : List Char) : Option (List Char) :=
  (ciConsume "\"mediaid\"".data l).bind fun l1 =>
    match l1.dropWhile isSpaceChar with
    | ':' :: l3 =>
      let g := (l3.dropWhile isSpaceChar).takeWhile isDigitChar
      if g.isEmpty then none else some g
    | _ => none

/-- Group piece `["\']?([^",\s}]+)` with the backtracking the optional
quote needs: if consuming a leading quote leaves an empty group, retry
without consuming it. -/
def mediaIdGroup (l : List Char) : Option (List Char) :=
  let cls := fun c => c ≠ '"' && c ≠ ',' && !isSpaceChar c && c ≠ '}'
  match l with
  | [] => none
  | q :: rest =>
    if q = '"' || q = '\'' then
      let g := rest.takeWhile cls
      if g.isEmpty then
        let g2 := l.takeWhile cls
        if g2.isEmpty then none else some g2
      else some g
    else
      let g := l.takeWhile cls
      if g.isEmpty then none else some g

/-- Attempt of pattern `key["\']?\s*:\s*["\']?([^",\s}]+)` at one position
(used with keys `mediaId` and `media-id`). -/
def mediaIdLooseAt (key : List Char) (l : List Char) : Option (List Char) :=
  (ciConsume key l).bind fun l1 =>
    let l2 := match l1 with
      | '"' :: r => r
      | '\'' :: r => r
      | r => r
    match l2.dropWhile isSpaceChar with
    | ':' :: l3 => mediaIdGroup (l3.dropWhile isSpaceChar)
    | _ => none

/-- Python `matches[0].strip('"\'')`. -/
def stripQuotes (g : List Char) : List Char :=
  pyStripChars (fun c => c = '"' || c = '\'') g

/-- Attribute names probed on a DOM match
(`['data-media-id', 'data-mediaid', 'data-id']`). -/
def media_attr_names : List String := ["data-media-id", "data-mediaid", "data-id"]

/-- Probe one element's media attributes: first attribute whose value is a
non-empty digit string (`value.isdigit()`). -/
def tryMediaAttrs (n : HNode) : List String → Option String
  | [] => none
  | a :: rest =>
    match getAttr n a with
    | some v =>
      if !v.isEmpty && v.data.all isDigitChar then some v else tryMediaAttrs n rest
    | none => tryMediaAttrs n rest

/-- DOM selectors probed by method 2 of `extract_media_id`. -/
def dom_media_selectors : List Selector :=
  [.attrPresent "data-media-id", .attrPresent "data-mediaid",
   .attrPresent "data-id", .clsAttr "media-player" "data-id",
   .clsAttr "audio-player" "data-id", .clsAttr "listen-button" "data-id",
   .clsAttr "play-button" "data-id"]

/-- Element loop of method 2. -/
def searchMediaElems : List HNode → Option String
  | [] => none
  | n :: rest =>
    match tryMediaAttrs n media_attr_names with
    | some v => some v
    | none => searchMediaElems rest

/-- Selector loop of method 2. -/
def domMediaSearch (soup : HForest) : List Selector → Option String
  | [] => none
  | sel :: rest =>
    match searchMediaElems (selectAll soup sel) with
    | some v => some v
    | none => domMediaSearch soup rest

/-- First match of `\b(\d{7,8})\b` in a script string: a run of exactly 7
or 8 digits delimited by non-word characters (or the ends). -/
def scriptIdGo (prevWord : Bool) : List Char → Option (List Char)
  | [] => none
  | c :: rest =>
    if !prevWord && isDigitChar c then
      let run := c :: rest.takeWhile isDigitChar
      let boundaryOk : Bool :=
        match rest.drop (run.length - 1) with
        | [] => true
        | d :: _ => !wordChar d
      if (run.length == 7 || run.length == 8) && boundaryOk then some run
      else scriptIdGo (wordChar c) rest
    else scriptIdGo (wordChar c) rest

/-- Script loop of method 3: first script whose string contains a 7-8
digit numeral. -/
def scriptsSearch : List HNode → Option String
  | [] => none
  | n :: rest =>
    match nodeString n with
    | some s =>
      match scriptIdGo false s.data with
      | some run => some run.asString
      | none => scriptsSearch rest
    | none => scriptsSearch rest

/-- `extract_media_id(html_content, url)`: the four regex patterns over
the raw page string, then the DOM data-attribute probe, then the script
numeral fallback. -/
def extract_media_id (page : HForest) : Option String :=
  let html := (renderForest page).data
  match scanFirst mediaIdQuotedAt html with
  | some g => some (stripQuotes g).asString
  | none =>
  match scanFirst mediaIdNumAt html with
  | some g => some (stripQuotes g).asString
  | none =>
  match scanFirst (mediaIdLooseAt "mediaid".data) html with
  | some g => some (stripQuotes g).asString
  | none =>
  match scanFirst (mediaIdLooseAt "media-id".data) html with
  | some g => some (stripQuotes g).asString
  | none =>
  match domMediaSearch page dom_media_selectors with
  | some v => some v
  | none =>
    scriptsSearch ((forestPre page).filter (fun n => tagOf n == "script"))

/-- `extract_playlist_url(html_content, url)`: a falsy media id is a
definitive failure; otherwise the API behaviour decides the result. -/
def extract_playlist_url (page : HForest) (api : ApiBehavior) : Option String :=
  match extract_media_id page with
  | none => none
  | some mid => if mid.isEmpty then none else get_playlist_from_api api

/-! ## Metadata extraction
(`src/src/scraper/audiobook_scraper.py`, `_extract_metadata`) -/

/-- The fields of `AudiobookMetadata` referenced by the claims.  The
optional descriptive fields of the Python dataclass (description,
duration, publication date, genre, language, thumbnail, isbn, publisher,
narrator, series) are populated by independent best-effort cascades that
no claim constrains; they are omitted from the model. -/
structure AudiobookMetadata where
  title : String
  author : String
  url : String
  playlist_url : Option String := none
deriving Repr, DecidableEq

/-- `_extract_metadata(page_content, page_url)` restricted to the modelled
fields: the title/author completeness gate (`if not title or not author:
return None`), then playlist resolution. -/
def extract_metadata (page : HForest) (page_url : String) (api : ApiBehavior) :
    Option AudiobookMetadata :=
  let title := extract_title page
  let author := extract_author page
  if !optStrTruthy title || !optStrTruthy author then none
  else
    some { title := title.getD "", author := author.getD "", url := page_url,
           playlist_url := extract_playlist_url page api }

/-! ## Network fetcher
(`src/src/utils/network_utils.py`, `safe_request`)

One attempt's outcome is an input of the model: an HTTP status with a body
and an optional already-parsed `Retry-After` value, or a transport-level
failure (`ClientError` / `TimeoutError`).  Delays are modelled as rational
numbers (scaling by powers of two is exact in the source's floats). -/

inductive RespOutcome where
  | status (code : Nat) (body : String) (retryAfter : Option ℚ)
  | transportError

/-- Errors raised by `safe_request`. -/
inductive NetErr where
  | networkError
  | rateLimitError
deriving Repr, DecidableEq

/-- Observable behaviour of one `safe_request` call: the final outcome
(`Except.error` models a raised exception, `Except.ok` a returned value),
the number of requests issued, and the sleeps performed, in order. -/
structure ReqTrace where
  result : Except NetErr (Option String)
  attempts : Nat
  sleeps : List ℚ
deriving Repr

/-- Body of the `for attempt in range(max_retries + 1)` loop of
`safe_request`.  `fuel` is the number of loop iterations left
(`max_retries + 1 - attempt`); falling off the loop returns `None`. -/
def safe_request_go (responses : Nat → RespOutcome) (max_retries : Nat)
    (delay : ℚ) : Nat → Nat → ReqTrace
  | _, 0 => ⟨.ok none, 0, []⟩
  | attempt, fuel + 1 =>
    match responses attempt with
    | .status code body retryAfter =>
      if code = 200 then ⟨.ok (some body), 1, []⟩
      else if code = 429 then
        let wait := retryAfter.getD (delay * 2 ^ attempt)
        if attempt < max_retries then
          let t := safe_request_go responses max_retries delay (attempt + 1) fuel
          ⟨t.result, t.attempts + 1, wait :: t.sleeps⟩
        else ⟨.error .rateLimitError, 1, []⟩
      else if 500 ≤ code then
        if attempt < max_retries then
          let t := safe_request_go responses max_retries delay (attempt + 1) fuel
          ⟨t.result, t.attempts + 1, delay * 2 ^ attempt :: t.sleeps⟩
        else ⟨.error .networkError, 1, []⟩
      else if code = 404 then ⟨.ok none, 1, []⟩
      else if 400 ≤ code then ⟨.ok none, 1, []⟩
      else
        -- Statuses below 400 other than 200 match no branch: the loop
        -- just moves to the next attempt, with no sleep.
        let t := safe_request_go responses max_retries delay (attempt + 1) fuel
        ⟨t.result, t.attempts + 1, t.sleeps⟩
    | .transportError =>
      if attempt < max_retries then
        let t := safe_request_go responses max_retries delay (attempt + 1) fuel
        ⟨t.result, t.attempts + 1, delay * 2 ^ attempt :: t.sleeps⟩
      else ⟨.error .networkError, 1, []⟩

/-- `safe_request(url, max_retries=..., delay=...)` against a response
oracle. -/
def safe_request (responses : Nat → RespOutcome) (max_retries : Nat)
    (delay : ℚ) : ReqTrace :=
  safe_request_go responses max_retries delay 0 (max_retries + 1)

/-! ## Category discovery
(`src/archive/python_original/src/scraper/category_scraper.py`,
`_parse_category_page`) -/

/-- Discovery record created by the category scraper. -/
structure AudiobookInfo where
  title : String
  author : String
  url : String
  thumbnail_url : Option String := none
  description : Option String := none
deriving Repr, DecidableEq

/-- De-duplication loop of `_parse_category_page`: keep a book when its
URL has not been seen yet. -/
def removeDuplicateUrls (seen : List String) :
    List AudiobookInfo → List AudiobookInfo
  | [] => []
  | b :: rest =>
    if b.url ∈ seen then removeDuplicateUrls seen rest
    else b :: removeDuplicateUrls (b.url :: seen) rest

/-- `_parse_category_page`, parameterised by the entry lists the four
parsing strategies produce (in their fixed order: grid items, structured
items, `Livre audio` text sections, generic links).  The source extends
the accumulator with each strategy's (possibly empty) list and then
de-duplicates by URL. -/
def parse_category_page (s1 s2 s3 s4 : List AudiobookInfo) :
    List AudiobookInfo :=
  removeDuplicateUrls [] (s1 ++ s2 ++ s3 ++ s4)

/-! ## Pipeline orchestrator
(`src/src/main.py`, `_process_single_audiobook`)

The per-item pipeline is modelled as a function of the behaviours of its
collaborators: the scraper result, the downloader result and the tagger
result (each may also raise, which the item-boundary `except` turns into a
failure), together with the set of files present at the output directory. -/

/-- Run statistics owned by the orchestrator. -/
structure Stats where
  discovered : Nat
  processed : Nat
  downloaded : Nat
  failed : Nat
  skipped : Nat
deriving Repr, DecidableEq

/-- Outcome of one collaborator call: a returned value or a raised
exception. -/
inductive Step (α : Type) where
  | ok (a : α)
  | raises
deriving Repr, DecidableEq

/-- Collaborator behaviours for one item. -/
structure ProcEnv where
  scrape : Step (Option AudiobookMetadata)
  download : Step (Option String)
  embed : Step Bool

/-- Configuration fields read by `_process_single_audiobook`. -/
structure ProcConfig where
  output_directory : String
  skip_existing : Bool
  embed_metadata : Bool

/-- Result of `_process_single_audiobook`: return value, updated
statistics, and whether the external downloader was invoked. -/
structure ProcResult where
  success : Bool
  stats : Stats
  downloaderInvoked : Bool
deriving Repr, DecidableEq

/-- `_process_single_audiobook(audiobook)`: increment `processed`, extract
metadata (failure or a missing playlist URL marks the item failed), skip
when the deterministically named output file exists and `skip_existing` is
set, otherwise download and optionally embed tags (an embed failure is
logged but the item still counts as downloaded; a raised exception is
caught at the item boundary and counts as failed). -/
def process_single_audiobook (cfg : ProcConfig) (env : ProcEnv)
    (existingFiles : List String) (stats : Stats) : ProcResult :=
  let stats := { stats with processed := stats.processed + 1 }
  match env.scrape with
  | .raises => ⟨false, { stats with failed := stats.failed + 1 }, false⟩
  | .ok none => ⟨false, { stats with failed := stats.failed + 1 }, false⟩
  | .ok (some md) =>
    if !optStrTruthy md.playlist_url then
      ⟨false, { stats with failed := stats.failed + 1 }, false⟩
    else
      let filename := format_audiobook_filename md.title md.author "mp3"
      let output_path := cfg.output_directory ++ "/" ++ filename
      if cfg.skip_existing && existingFiles.contains output_path then
        ⟨true, { stats with skipped := stats.skipped + 1 }, false⟩
      else
        match env.download with
        | .raises => ⟨false, { stats with failed := stats.failed + 1 }, true⟩
        | .ok none => ⟨false, { stats with failed := stats.failed + 1 }, true⟩
        | .ok (some _) =>
          if cfg.embed_metadata then
            match env.embed with
            | .raises => ⟨false, { stats with failed := stats.failed + 1 }, true⟩
            | .ok _ =>
              ⟨true, { stats with downloaded := stats.downloaded + 1 }, true⟩
          else ⟨true, { stats with downloaded := stats.downloaded + 1 }, true⟩

/-! ## Fixtures and auxiliary predicates used by the theorems -/

/-! String values occurring in a JSON value (the root, array elements and
object-field values); keys are not values.  Used to state that a response
contains no string ending in `.m3u8`. -/
mutual

def jStrings : JVal → List String
  | .str s => [s]
  | .arr xs => jStringsArr xs
  | .obj fields => jStringsObj fields
  | _ => []

def jStringsArr : JArr → List String
  | .nil => []
  | .cons v rest => jStrings v ++ jStringsArr rest

def jStringsObj : JObj → List String
  | .nil => []
  | .cons _ v rest => jStrings v ++ jStringsObj rest

end

/-- The happy-path page of the spec's scenario: an `h1` title, an
`Écrit par` author block, and a script carrying a `mediaId`. -/
def scenarioPage : HForest :=
  .cons (.elem "html" [] (.cons (.elem "body" []
    (.cons (.elem "h1" [] (.cons (.htext "Title X") .nil))
    (.cons (.elem "p" [] (.cons (.htext "Écrit par Jane Doe") .nil))
    (.cons (.elem "script" []
      (.cons (.htext "var player = \x7b\"mediaId\":\"1234567\"\x7d;") .nil))
    .nil)))) .nil)) .nil

/-- The happy-path API response `{"url": "https://x/master.m3u8"}`. -/
def scenarioApi : ApiBehavior :=
  .ok (.obj (.cons "url" (.str "https://x/master.m3u8") .nil))

/-- The spec's nested API response
`{"validationResults": [{"other": 1}, {"url": "https://y/z.m3u8"}]}`. -/
def nestedApiData : JVal :=
  .obj (.cons "validationResults"
    (.arr (.cons (.obj (.cons "other" (.num 1) .nil))
      (.cons (.obj (.cons "url" (.str "https://y/z.m3u8") .nil)) .nil))) .nil)

/-- Response on which the code and the claimed priority order disagree:
`{"url": 5, "x": "a.m3u8"}` (the truthy non-string `url` raises
`AttributeError`, which the code turns into `None`). -/
def badUrlData : JVal :=
  .obj (.cons "url" (.num 5) (.cons "x" (.str "a.m3u8") .nil))

/-- Discovery entry fixture (strategy 1). -/
def wbookFirst : AudiobookInfo := ⟨"Book One", "Author One", "u1", none, none⟩

/-- Discovery entry fixture: same URL as `wbookFirst`, found by a later
strategy with different field values. -/
def wbookDupe : AudiobookInfo := ⟨"Book One Again", "Someone Else", "u1", none, none⟩

/-- Discovery entry fixture with a distinct URL. -/
def wbookOther : AudiobookInfo := ⟨"Book Two", "Author Two", "u2", none, none⟩

/-- Response oracle that always answers HTTP 500. -/
def alwaysServerError : Nat → RespOutcome := fun _ => .status 500 "" none

/-- Response oracle that always answers HTTP 404. -/
def alwaysNotFound : Nat → RespOutcome := fun _ => .status 404 "" none

/-- Metadata fixture with a playlist URL. -/
def wMeta : AudiobookMetadata :=
  { title := "Title X", author := "Jane Doe", url := "https://page",
    playlist_url := some "https://x/master.m3u8" }

/-! ## Theorems -/

/-- Helper: the de-duplicated list is a sublist of the input. -/
theorem removeDuplicateUrls_sublist (seen : List String) (l : List AudiobookInfo) :
    (removeDuplicateUrls seen l).Sublist l := by
  induction l generalizing seen with
  | nil => simp [removeDuplicateUrls]
  | cons b rest ih =>
    simp only [removeDuplicateUrls]
    split
    · exact (ih seen).cons b
    · exact (ih (b.url :: seen)).cons₂ b

/-- Helper: kept entries have URLs outside the seen set. -/
theorem removeDuplicateUrls_mem_not_seen {seen : List String}
    {l : List AudiobookInfo} {b : AudiobookInfo}
    (h : b ∈ removeDuplicateUrls seen l) : b.url ∉ seen := by
  induction l generalizing seen with
  | nil => simp [removeDuplicateUrls] at h
  | cons a rest ih =>
    simp only [removeDuplicateUrls] at h
    split at h
    · exact ih h
    · rcases List.mem_cons.mp h with rfl | h'
      · assumption
      · intro hb
        exact ih h' (List.mem_cons_of_mem _ hb)

/-- Helper: each kept entry is the first input entry with its URL. -/
theorem removeDuplicateUrls_find_first {seen : List String}
    {l : List AudiobookInfo} {b : AudiobookInfo}
    (h : b ∈ removeDuplicateUrls seen l) :
    l.find? (fun x => x.url == b.url) = some b := by
  induction l generalizing seen with
  | nil => simp [removeDuplicateUrls] at h
  | cons a rest ih =>
    simp only [removeDuplicateUrls] at h
    split at h
    · have hb := removeDuplicateUrls_mem_not_seen h
      have hne : (a.url == b.url) = false := by
        apply beq_false_of_ne
        intro he
        exact hb (he ▸ ‹a.url ∈ seen›)
      simp [List.find?, hne, ih h]
    · rcases List.mem_cons.mp h with rfl | h'
      · simp [List.find?]
      · have hb := removeDuplicateUrls_mem_not_seen h'
        have hne : (a.url == b.url) = false := by
          apply beq_false_of_ne
          intro he
          exact hb (he ▸ List.mem_cons_self _ _)
        simp [List.find?, hne, ih h']

/-- Helper: the kept URLs are pairwise distinct. -/
theorem removeDuplicateUrls_nodup (seen : List String) (l : List AudiobookInfo) :
    ((removeDuplicateUrls seen l).map (·.url)).Nodup := by
  induction l generalizing seen with
  | nil => simp [removeDuplicateUrls]
  | cons a rest ih =>
    simp only [removeDuplicateUrls]
    split
    · exact ih seen
    · refine List.Nodup.cons ?_ (ih (a.url :: seen))
      intro hmem
      rcases List.mem_map.mp hmem with ⟨b, hb, hurl⟩
      exact removeDuplicateUrls_mem_not_seen hb (hurl ▸ List.mem_cons_self _ _)

/-- Helper: every unseen input URL survives de-duplication. -/
theorem removeDuplicateUrls_complete {seen : List String}
    {l : List AudiobookInfo} {u : String}
    (hu : u ∈ l.map (·.url)) (hs : u ∉ seen) :
    u ∈ (removeDuplicateUrls seen l).map (·.url) := by
  induction l generalizing seen with
  | nil => simp at hu
  | cons a rest ih =>
    simp only [removeDuplicateUrls]
    rcases List.mem_map.mp hu with ⟨b, hb, hurl⟩
    subst hurl
    rcases List.mem_cons.mp hb with rfl | hb'
    · split
      · next h => exact absurd h hs
      · exact List.mem_map_of_mem _ (List.mem_cons_self _ _)
    · split
      · exact ih (List.mem_map_of_mem _ hb') hs
      · by_cases hau : b.url = a.url
        · simp only [List.map_cons]
          exact hau ▸ List.mem_cons_self _ _
        · have hnotin : b.url ∉ a.url :: seen := by
            intro hmem
            rcases List.mem_cons.mp hmem with h | h
            · exact hau h
            · exact hs h
          simp only [List.map_cons]
          exact List.mem_cons_of_mem _ (ih (List.mem_map_of_mem _ hb') hnotin)

/-- C2: for every combination of entries produced by the four parsing
strategies, `_parse_category_page` keeps each distinct URL exactly once,
in first-seen order (the result is a sublist of the concatenation, its
URLs are pairwise distinct, and no input URL is lost), and the entry kept
for a URL is the first entry of the strategy-ordered concatenation with
that URL, i.e. the one produced by the earliest strategy. -/
theorem C2_parse_category_page_dedup (s1 s2 s3 s4 : List AudiobookInfo) :
    (parse_category_page s1 s2 s3 s4).Sublist (s1 ++ s2 ++ s3 ++ s4) ∧
    ((parse_category_page s1 s2 s3 s4).map (·.url)).Nodup ∧
    (∀ u, u ∈ (s1 ++ s2 ++ s3 ++ s4).map (·.url) →
      u ∈ (parse_category_page s1 s2 s3 s4).map (·.url)) ∧
    (∀ b, b ∈ parse_category_page s1 s2 s3 s4 →
      (s1 ++ s2 ++ s3 ++ s4).find? (fun x => x.url == b.url) = some b) := by
  refine ⟨removeDuplicateUrls_sublist [] _, removeDuplicateUrls_nodup [] _,
    fun u hu => removeDuplicateUrls_complete hu (by simp),
    fun b hb => removeDuplicateUrls_find_first hb⟩

/-- C2 witness: with a duplicated URL across strategies, the kept entry is
the first strategy's. -/
theorem C2_parse_category_page_dedup_witness :
    ([wbookFirst] ++ [wbookDupe, wbookOther] ++ [] ++ []).find?
      (fun x => x.url == wbookFirst.url) = some wbookFirst :=
  (C2_parse_category_page_dedup [wbookFirst] [wbookDupe, wbookOther] [] []).2.2.2
    wbookFirst (by decide)

/-- Helper: shape of the retry loop when every response is a 500. -/
theorem safe_request_go_all_500 (responses : Nat → RespOutcome)
    (max_retries : Nat) (delay : ℚ)
    (h500 : ∀ n, ∃ b ra, responses n = .status 500 b ra) :
    ∀ fuel attempt, attempt + fuel = max_retries →
      safe_request_go responses max_retries delay attempt (fuel + 1) =
        ⟨.error .networkError, fuel + 1,
         (List.range fuel).map (fun k => delay * 2 ^ (attempt + k))⟩ := by
  intro fuel
  induction fuel with
  | zero =>
    intro attempt hat
    obtain ⟨b, ra, hresp⟩ := h500 attempt
    have hlt : ¬attempt < max_retries := by omega
    simp [safe_request_go, hresp, hlt]
  | succ f ih =>
    intro attempt hat
    obtain ⟨b, ra, hresp⟩ := h500 attempt
    have hlt : attempt < max_retries := by omega
    have hrec := ih (attempt + 1) (by omega)
    rw [safe_request_go.eq_2, hresp]
    norm_num [hlt, hrec, ReqTrace.mk.injEq]
    rw [List.range_succ_eq_map]
    simp only [List.map_cons, List.map_map, Nat.add_zero]
    congr 1
    apply List.map_congr_left
    intro k _
    simp only [Function.comp_apply]
    have he : attempt + 1 + k = attempt + Nat.succ k := by omega
    rw [he]

/-- C4: against an endpoint that always answers HTTP 500, `safe_request`
issues exactly `max_retries + 1` requests, sleeps `delay * 2^k` before
retry `k` (hence the delays are non-decreasing for `delay ≥ 0`), and
finally raises the network-failure error. -/
theorem C4_safe_request_always_500 (responses : Nat → RespOutcome)
    (max_retries : Nat) (delay : ℚ)
    (h500 : ∀ n, ∃ b ra, responses n = .status 500 b ra) :
    (safe_request responses max_retries delay).result = .error .networkError ∧
    (safe_request responses max_retries delay).attempts = max_retries + 1 ∧
    (safe_request responses max_retries delay).sleeps =
      (List.range max_retries).map (fun k => delay * 2 ^ k) ∧
    (0 ≤ delay →
      (safe_request responses max_retries delay).sleeps.Chain' (· ≤ ·)) := by
  have h := safe_request_go_all_500 responses max_retries delay h500
    max_retries 0 (by omega)
  have hs : (safe_request responses max_retries delay).sleeps =
      (List.range max_retries).map (fun k => delay * 2 ^ k) := by
    rw [safe_request, h]
    simp
  refine ⟨by rw [safe_request, h], by rw [safe_request, h], hs, fun hd => ?_⟩
  rw [hs]
  have mono : ∀ i j : Nat, i ≤ j → delay * 2 ^ i ≤ delay * 2 ^ j := by
    intro i j hij
    apply mul_le_mul_of_nonneg_left _ hd
    exact pow_le_pow_right₀ (by norm_num) hij
  apply List.chain'_map_of_chain' (fun k => delay * 2 ^ k)
    (R := fun a b : Nat => a < b)
  · intro a b hab
    exact mono a b (le_of_lt hab)
  · exact (List.pairwise_lt_range _).chain'

/-- C4 witness: three attempts and sleeps `1, 2` for
`max_retries = 2, delay = 1`. -/
theorem C4_safe_request_always_500_witness :
    (safe_request alwaysServerError 2 1).result = .error .networkError ∧
    (safe_request alwaysServerError 2 1).attempts = 2 + 1 :=
  ⟨(C4_safe_request_always_500 alwaysServerError 2 1
      (fun _ => ⟨"", none, rfl⟩)).1,
   (C4_safe_request_always_500 alwaysServerError 2 1
      (fun _ => ⟨"", none, rfl⟩)).2.1⟩

/-- C7: a first response that is a 404, or any other 4xx except 429, makes
`safe_request` return the not-found result `None` after exactly one
request, with no sleep and no raised error. -/
theorem C7_safe_request_4xx_no_retry (responses : Nat → RespOutcome)
    (max_retries : Nat) (delay : ℚ) (code : Nat) (body : String)
    (ra : Option ℚ) (h0 : responses 0 = .status code body ra)
    (hc : code = 404 ∨ (400 ≤ code ∧ code < 500 ∧ code ≠ 429)) :
    (safe_request responses max_retries delay).result = .ok none ∧
    (safe_request responses max_retries delay).attempts = 1 ∧
    (safe_request responses max_retries delay).sleeps = [] := by
  have h200 : ¬code = 200 := by omega
  have h429 : ¬code = 429 := by omega
  have h500 : ¬500 ≤ code := by omega
  rw [safe_request]
  rcases hc with rfl | ⟨h400, _, _⟩
  · simp [safe_request_go, h0]
  · have h404 : code = 404 ∨ ¬code = 404 := em _
    rcases h404 with rfl | h404
    · simp [safe_request_go, h0]
    · simp [safe_request_go, h0, h200, h429, h500, h404, h400]

/-- C7 witness: a 404 on the first attempt. -/
theorem C7_safe_request_4xx_no_retry_witness :
    (safe_request alwaysNotFound 3 1).result = .ok none ∧
    (safe_request alwaysNotFound 3 1).attempts = 1 ∧
    (safe_request alwaysNotFound 3 1).sleeps = [] :=
  C7_safe_request_4xx_no_retry alwaysNotFound 3 1 404 "" none rfl (Or.inl rfl)

/-- C8: when metadata extraction succeeds with a playlist URL,
`skip_existing` is set and a file already exists at the deterministic
target path, `_process_single_audiobook` does not invoke the external
downloader, increments `skipped` by one, and leaves `downloaded` and
`failed` unchanged. -/
theorem C8_skip_existing (cfg : ProcConfig) (env : ProcEnv)
    (existingFiles : List String) (stats : Stats) (md : AudiobookMetadata)
    (hscrape : env.scrape = .ok (some md))
    (hurl : optStrTruthy md.playlist_url = true)
    (hskip : cfg.skip_existing = true)
    (hex : (cfg.output_directory ++ "/" ++
        format_audiobook_filename md.title md.author "mp3") ∈ existingFiles) :
    (process_single_audiobook cfg env existingFiles stats).downloaderInvoked
        = false ∧
    (process_single_audiobook cfg env existingFiles stats).stats.skipped
        = stats.skipped + 1 ∧
    (process_single_audiobook cfg env existingFiles stats).stats.downloaded
        = stats.downloaded ∧
    (process_single_audiobook cfg env existingFiles stats).stats.failed
        = stats.failed := by
  simp [process_single_audiobook, hscrape, hurl, hskip, hex]

/-- C8 witness: an existing file at the generated path is skipped. -/
theorem C8_skip_existing_witness :
    (process_single_audiobook
      ⟨"out", true, true⟩
      ⟨.ok (some wMeta), .ok (some "f"), .ok true⟩
      ["out/Jane_Doe_-_Title_X.mp3"]
      ⟨0, 0, 0, 0, 0⟩).downloaderInvoked = false ∧
    (process_single_audiobook
      ⟨"out", true, true⟩
      ⟨.ok (some wMeta), .ok (some "f"), .ok true⟩
      ["out/Jane_Doe_-_Title_X.mp3"]
      ⟨0, 0, 0, 0, 0⟩).stats.skipped = 0 + 1 := by
  have h := C8_skip_existing ⟨"out", true, true⟩
    ⟨.ok (some wMeta), .ok (some "f"), .ok true⟩
    ["out/Jane_Doe_-_Title_X.mp3"] ⟨0, 0, 0, 0, 0⟩ wMeta rfl (by decide)
    rfl (by decide)
  exact ⟨h.1, h.2.1⟩

/-- C10: every completed call to `_process_single_audiobook` increments
`processed` by exactly one and exactly one of `downloaded`, `skipped`,
`failed` by exactly one (leaving `discovered` unchanged); consequently the
invariant `processed = downloaded + skipped + failed` is preserved; and a
tag-embedding failure (the tagger returns `False`) still counts the item
as downloaded. -/
theorem C10_stats_partition (cfg : ProcConfig) (env : ProcEnv)
    (existingFiles : List String) (stats : Stats) :
    (process_single_audiobook cfg env existingFiles stats).stats.processed
        = stats.processed + 1 ∧
    (process_single_audiobook cfg env existingFiles stats).stats.discovered
        = stats.discovered ∧
    (((process_single_audiobook cfg env existingFiles stats).stats.downloaded
          = stats.downloaded + 1 ∧
      (process_single_audiobook cfg env existingFiles stats).stats.skipped
          = stats.skipped ∧
      (process_single_audiobook cfg env existingFiles stats).stats.failed
          = stats.failed) ∨
     ((process_single_audiobook cfg env existingFiles stats).stats.skipped
          = stats.skipped + 1 ∧
      (process_single_audiobook cfg env existingFiles stats).stats.downloaded
          = stats.downloaded ∧
      (process_single_audiobook cfg env existingFiles stats).stats.failed
          = stats.failed) ∨
     ((process_single_audiobook cfg env existingFiles stats).stats.failed
          = stats.failed + 1 ∧
      (process_single_audiobook cfg env existingFiles stats).stats.downloaded
          = stats.downloaded ∧
      (process_single_audiobook cfg env existingFiles stats).stats.skipped
          = stats.skipped)) ∧
    (stats.processed = stats.downloaded + stats.skipped + stats.failed →
      (process_single_audiobook cfg env existingFiles stats).stats.processed =
        (process_single_audiobook cfg env existingFiles stats).stats.downloaded +
        (process_single_audiobook cfg env existingFiles stats).stats.skipped +
        (process_single_audiobook cfg env existingFiles stats).stats.failed) ∧
    (∀ md p, env.scrape = .ok (some md) →
      optStrTruthy md.playlist_url = true →
      ¬(cfg.skip_existing = true ∧ (cfg.output_directory ++ "/" ++
          format_audiobook_filename md.title md.author "mp3") ∈ existingFiles) →
      env.download = .ok (some p) → env.embed = .ok false →
      cfg.embed_metadata = true →
      (process_single_audiobook cfg env existingFiles stats).stats.downloaded
        = stats.downloaded + 1) := by
  obtain ⟨scrape, download, embed⟩ := env
  have main : ∀ r : ProcResult,
      r = process_single_audiobook cfg ⟨scrape, download, embed⟩
        existingFiles stats →
      r.stats.processed = stats.processed + 1 ∧
      r.stats.discovered = stats.discovered ∧
      ((r.stats.downloaded = stats.downloaded + 1 ∧
        r.stats.skipped = stats.skipped ∧ r.stats.failed = stats.failed) ∨
       (r.stats.skipped = stats.skipped + 1 ∧
        r.stats.downloaded = stats.downloaded ∧ r.stats.failed = stats.failed) ∨
       (r.stats.failed = stats.failed + 1 ∧
        r.stats.downloaded = stats.downloaded ∧
        r.stats.skipped = stats.skipped)) := by
    intro r hr
    subst hr
    rcases scrape with o | _
    · rcases o with _ | md
      · simp [process_single_audiobook]
      · by_cases hurl : optStrTruthy md.playlist_url = true
        · by_cases hskip : cfg.skip_existing = true ∧
            (cfg.output_directory ++ "/" ++
              format_audiobook_filename md.title md.author "mp3") ∈ existingFiles
          · simp [process_single_audiobook, hurl, hskip]
          · rcases download with d | _
            · rcases d with _ | p
              · simp [process_single_audiobook, hurl, hskip]
              · by_cases hemb : cfg.embed_metadata = true
                · rcases embed with e | _
                  · simp [process_single_audiobook, hurl, hskip, hemb]
                  · simp [process_single_audiobook, hurl, hskip, hemb]
                · simp [process_single_audiobook, hurl, hskip, hemb]
            · simp [process_single_audiobook, hurl, hskip]
        · simp only [Bool.not_eq_true] at hurl
          simp [process_single_audiobook, hurl]
    · simp [process_single_audiobook]
  have hmain := main _ rfl
  refine ⟨hmain.1, hmain.2.1, hmain.2.2, ?_, ?_⟩
  · intro hinv
    rcases hmain.2.2 with ⟨h1, h2, h3⟩ | ⟨h1, h2, h3⟩ | ⟨h1, h2, h3⟩ <;>
      rw [hmain.1, h1, h2, h3] <;> omega
  · intro md p hscrape hurl hskip hdl hemb hcfg
    cases hscrape
    cases hdl
    cases hemb
    simp [process_single_audiobook, hurl, hskip, hcfg]

/-- C10 witness: a download with a failing tag embed still counts as
downloaded. -/
theorem C10_stats_partition_witness :
    (process_single_audiobook ⟨"out", false, true⟩
      ⟨.ok (some wMeta), .ok (some "f"), .ok false⟩ [] ⟨0, 0, 0, 0, 0⟩).stats.downloaded
      = 0 + 1 :=
  (C10_stats_partition ⟨"out", false, true⟩
    ⟨.ok (some wMeta), .ok (some "f"), .ok false⟩ [] ⟨0, 0, 0, 0, 0⟩).2.2.2.2
    wMeta "f" rfl (by decide) (by decide) rfl rfl rfl

/-- C1: when the title or author cascade yields nothing,
`_extract_metadata` reports failure, and every returned record has a
non-empty title and a non-empty author. -/
theorem C1_completeness_gate (page : HForest) (page_url : String)
    (api : ApiBehavior) :
    ((extract_title page = none ∨ extract_author page = none) →
      extract_metadata page page_url api = none) ∧
    (∀ md, extract_metadata page page_url api = some md →
      md.title ≠ "" ∧ md.author ≠ "") := by
  constructor
  · rintro (h | h) <;> simp [extract_metadata, h, optStrTruthy]
  · intro md h
    unfold extract_metadata at h
    rcases ht : extract_title page with _ | t <;> rw [ht] at h
    · simp [optStrTruthy] at h
    · rcases ha : extract_author page with _ | a <;> rw [ha] at h
      · simp [optStrTruthy] at h
      · simp only [optStrTruthy, Bool.not_not] at h
        by_cases htE : t.isEmpty = true
        · simp [htE] at h
        · by_cases haE : a.isEmpty = true
          · simp [haE] at h
          · rw [Bool.not_eq_true] at htE haE
            simp only [htE, haE, Bool.or_self, Bool.false_eq_true,
              if_false, Option.some.injEq] at h
            obtain rfl := h
            refine ⟨fun he => ?_, fun he => ?_⟩
            · have he' : t = "" := he
              rw [he'] at htE
              exact absurd htE (by decide)
            · have he' : a = "" := he
              rw [he'] at haE
              exact absurd haE (by decide)

/-- C1 witness: an empty page yields no record; the happy-path scenario
record has non-empty title and author. -/
theorem C1_completeness_gate_witness :
    extract_metadata HForest.nil "u" .networkError = none ∧
    (wMeta.title ≠ "" ∧ wMeta.author ≠ "") :=
  ⟨(C1_completeness_gate HForest.nil "u" .networkError).1 (Or.inl rfl),
   (C1_completeness_gate scenarioPage "https://page" scenarioApi).2 wMeta rfl⟩

/-- Helper: a string of a field value found by `jGet` is a string of the
object. -/
theorem jGet_strings : ∀ (fields : JObj) (k : String) (v : JVal) (s : String),
    jGet k fields = some v → s ∈ jStrings v → s ∈ jStringsObj fields
  | .nil, _, _, _, h, _ => by simp [jGet] at h
  | .cons key w rest, k, v, s, h, hs => by
    simp only [jGet] at h
    split at h
    · cases h
      exact List.mem_append.mpr (Or.inl hs)
    · exact List.mem_append.mpr (Or.inr (jGet_strings rest k v s h hs))

/-- Helper: a string of an array element is a string of the array. -/
theorem jarrToList_strings : ∀ (xs : JArr) (v : JVal) (s : String),
    v ∈ jarrToList xs → s ∈ jStrings v → s ∈ jStringsArr xs
  | .nil, v, s, hv, _ => by simp [jarrToList] at hv
  | .cons w rest, v, s, hv, hs => by
    simp only [jarrToList] at hv
    rcases List.mem_cons.mp hv with rfl | h'
    · exact List.mem_append.mpr (Or.inl hs)
    · exact List.mem_append.mpr (Or.inr (jarrToList_strings rest v s h' hs))

/-- Helper: iterating an object yields only string values (its keys). -/
theorem jobjKeys_all_str : ∀ (fields : JObj) (v : JVal),
    v ∈ jobjKeys fields → ∃ k, v = .str k
  | .nil, v, hv => by simp [jobjKeys] at hv
  | .cons key w rest, v, hv => by
    simp only [jobjKeys] at hv
    rcases List.mem_cons.mp hv with rfl | h'
    · exact ⟨key, rfl⟩
    · exact jobjKeys_all_str rest v h'

/-- Helper: a successful `endswith` check means the value is a string
ending in `.m3u8`. -/
theorem endswithCheck_some {u : JVal} {s : String}
    (h : endswithCheck u = some (some s)) :
    pyEndsWith s ".m3u8" = true ∧ u = .str s := by
  unfold endswithCheck at h
  split at h
  · cases u <;> simp at h
    next s0 =>
      obtain ⟨he, rfl⟩ := h
      exact ⟨he, rfl⟩
  · simp at h

/-- Helper: a URL returned by the `validationResults` loop ends in `.m3u8`
and is a string of one of the iterated objects. -/
theorem vrLoop_some : ∀ (items : List JVal) (s : String),
    vrLoop items = some (some s) →
    pyEndsWith s ".m3u8" = true ∧ ∃ gs, (JVal.obj gs) ∈ items ∧ s ∈ jStringsObj gs := by
  intro items
  induction items with
  | nil => intro s h; simp [vrLoop] at h
  | cons r rest ih =>
    intro s h
    simp only [vrLoop] at h
    rcases r with s0 | n | b | _ | xs | gs
    · simp only [pyContains] at h
      cases hb : pyInStr "url" s0 <;> rw [hb] at h
      · obtain ⟨he, gs', hmem, hs⟩ := ih s h
        exact ⟨he, gs', List.mem_cons_of_mem _ hmem, hs⟩
      · simp [pyGetItem] at h
    · simp [pyContains] at h
    · simp [pyContains] at h
    · simp [pyContains] at h
    · simp only [pyContains] at h
      cases hb : jarrHasStr "url" xs <;> rw [hb] at h
      · obtain ⟨he, gs', hmem, hs⟩ := ih s h
        exact ⟨he, gs', List.mem_cons_of_mem _ hmem, hs⟩
      · simp [pyGetItem] at h
    · simp only [pyContains, pyGetItem] at h
      cases hb : jHasKey "url" gs <;> rw [hb] at h
      · obtain ⟨he, gs', hmem, hs⟩ := ih s h
        exact ⟨he, gs', List.mem_cons_of_mem _ hmem, hs⟩
      · rcases hg : jGet "url" gs with _ | u <;> rw [hg] at h <;> dsimp only at h
        · simp at h
        · rcases hu : endswithCheck u with _ | ou <;> rw [hu] at h
          · simp at h
          · rcases ou with _ | s'
            · obtain ⟨he, gs', hmem, hs⟩ := ih s h
              exact ⟨he, gs', List.mem_cons_of_mem _ hmem, hs⟩
            · simp only [Option.some.injEq] at h
              cases h
              obtain ⟨he, hu'⟩ := endswithCheck_some hu
              subst hu'
              refine ⟨he, gs, List.mem_cons_self _ _, ?_⟩
              exact jGet_strings gs "url" _ s hg (by simp [jStrings])

/-! Mutual helpers: a URL found by `find_m3u8_recursive` ends in `.m3u8`
and occurs among the strings of the searched value. -/
mutual

theorem find_m3u8_recursive_strings : ∀ (v : JVal) (s : String),
    find_m3u8_recursive v = some s →
    pyEndsWith s ".m3u8" = true ∧ s ∈ jStrings v
  | .obj fields, s, h => find_m3u8_fields_strings fields s h
  | .arr xs, s, h => find_m3u8_list_strings xs s h
  | .str _, s, h => by simp [find_m3u8_recursive] at h
  | .num _, s, h => by simp [find_m3u8_recursive] at h
  | .bool _, s, h => by simp [find_m3u8_recursive] at h
  | .null, s, h => by simp [find_m3u8_recursive] at h

theorem find_m3u8_fields_strings : ∀ (fields : JObj) (s : String),
    find_m3u8_fields fields = some s →
    pyEndsWith s ".m3u8" = true ∧ s ∈ jStringsObj fields
  | .nil, s, h => by simp [find_m3u8_fields] at h
  | .cons key v rest, s, h => by
    rcases v with s0 | n | b | _ | xs | gs
    · simp only [find_m3u8_fields] at h
      split at h
      · cases h
        next he =>
          exact ⟨he, List.mem_append.mpr (Or.inl (by simp [jStrings]))⟩
      · obtain ⟨he, hm⟩ := find_m3u8_fields_strings rest s h
        exact ⟨he, List.mem_append.mpr (Or.inr hm)⟩
    · simp only [find_m3u8_fields] at h
      obtain ⟨he, hm⟩ := find_m3u8_fields_strings rest s h
      exact ⟨he, List.mem_append.mpr (Or.inr hm)⟩
    · simp only [find_m3u8_fields] at h
      obtain ⟨he, hm⟩ := find_m3u8_fields_strings rest s h
      exact ⟨he, List.mem_append.mpr (Or.inr hm)⟩
    · simp only [find_m3u8_fields] at h
      obtain ⟨he, hm⟩ := find_m3u8_fields_strings rest s h
      exact ⟨he, List.mem_append.mpr (Or.inr hm)⟩
    · simp only [find_m3u8_fields] at h
      rcases hx : find_m3u8_list xs with _ | r <;> rw [hx] at h
      · obtain ⟨he, hm⟩ := find_m3u8_fields_strings rest s h
        exact ⟨he, List.mem_append.mpr (Or.inr hm)⟩
      · cases h
        obtain ⟨he, hm⟩ := find_m3u8_list_strings xs s hx
        exact ⟨he, List.mem_append.mpr (Or.inl hm)⟩
    · simp only [find_m3u8_fields] at h
      rcases hx : find_m3u8_fields gs with _ | r <;> rw [hx] at h
      · obtain ⟨he, hm⟩ := find_m3u8_fields_strings rest s h
        exact ⟨he, List.mem_append.mpr (Or.inr hm)⟩
      · cases h
        obtain ⟨he, hm⟩ := find_m3u8_fields_strings gs s hx
        exact ⟨he, List.mem_append.mpr (Or.inl hm)⟩

theorem find_m3u8_list_strings : ∀ (xs : JArr) (s : String),
    find_m3u8_list xs = some s →
    pyEndsWith s ".m3u8" = true ∧ s ∈ jStringsArr xs
  | .nil, s, h => by simp [find_m3u8_list] at h
  | .cons v rest, s, h => by
    simp only [find_m3u8_list] at h
    rcases hv : find_m3u8_recursive v with _ | r <;> rw [hv] at h
    · obtain ⟨he, hm⟩ := find_m3u8_list_strings rest s h
      exact ⟨he, List.mem_append.mpr (Or.inr hm)⟩
    · cases h
      obtain ⟨he, hm⟩ := find_m3u8_recursive_strings v s hv
      exact ⟨he, List.mem_append.mpr (Or.inl hm)⟩

end

/-- Helper: a URL returned by step 1 ends in `.m3u8` and is a string of
the response. -/
theorem apiStep1_some {data : JVal} {s : String}
    (h : apiStep1 data = some (some s)) :
    pyEndsWith s ".m3u8" = true ∧ s ∈ jStrings data := by
  unfold apiStep1 at h
  split at h
  · cases h
  · split at h
    · cases h
    · next u heq =>
      obtain ⟨he, hu⟩ := endswithCheck_some h
      subst hu
      refine ⟨he, ?_⟩
      rcases data with _ | _ | _ | _ | _ | fields <;> simp [pyGetItem] at heq
      exact jGet_strings fields "url" _ s heq (by simp [jStrings])
  · simp at h

/-- Helper: a URL returned by step 2 ends in `.m3u8` and is a string of
the response. -/
theorem apiStep2_some {data : JVal} {s : String}
    (h : apiStep2 data = some (some s)) :
    pyEndsWith s ".m3u8" = true ∧ s ∈ jStrings data := by
  unfold apiStep2 at h
  split at h
  · cases h
  · split at h
    · cases h
    · next vr heq =>
      split at h
      · cases h
      · next items hit =>
        obtain ⟨he, gs, hmem, hs⟩ := vrLoop_some items s h
        refine ⟨he, ?_⟩
        rcases data with _ | _ | _ | _ | _ | fields <;> simp [pyGetItem] at heq
        rcases vr with v0 | _ | _ | _ | ys | gs2
        · simp only [pyIter, Option.some.injEq] at hit
          subst hit
          rcases List.mem_map.mp hmem with ⟨c, _, hc⟩
          cases hc
        · simp [pyIter] at hit
        · simp [pyIter] at hit
        · simp [pyIter] at hit
        · simp only [pyIter, Option.some.injEq] at hit
          subst hit
          have hsarr : s ∈ jStringsArr ys :=
            jarrToList_strings ys (JVal.obj gs) s hmem hs
          exact jGet_strings fields "validationResults" _ s heq hsarr
        · simp only [pyIter, Option.some.injEq] at hit
          subst hit
          obtain ⟨k, hk⟩ := jobjKeys_all_str gs2 _ hmem
          cases hk
  · simp at h

/-- Helper: every URL returned by the API search ends in `.m3u8` and
occurs among the string values of the response. -/
theorem api_data_some {data : JVal} {s : String}
    (h : get_playlist_from_api_data data = some s) :
    pyEndsWith s ".m3u8" = true ∧ s ∈ jStrings data := by
  unfold get_playlist_from_api_data at h
  split at h
  · cases h
  · next s0 heq =>
    cases h
    exact apiStep1_some heq
  · split at h
    · cases h
    · next s0 heq =>
      cases h
      exact apiStep2_some heq
    · exact find_m3u8_recursive_strings _ s h

/-- C9: `extract_playlist_url` is total with only two outcomes: every
failing API behaviour (transport error, non-2xx status, malformed JSON, or
a JSON body with no string ending in `.m3u8`) yields `None`, and any
returned value is a manifest URL (a string ending in `.m3u8`). -/
theorem C9_extract_playlist_url_total (page : HForest) (api : ApiBehavior) :
    (api = .networkError → extract_playlist_url page api = none) ∧
    (api = .httpError → extract_playlist_url page api = none) ∧
    (api = .malformedJson → extract_playlist_url page api = none) ∧
    (∀ data, api = .ok data →
      (∀ s ∈ jStrings data, pyEndsWith s ".m3u8" = false) →
      extract_playlist_url page api = none) ∧
    (extract_playlist_url page api = none ∨
      ∃ s, extract_playlist_url page api = some s ∧
        pyEndsWith s ".m3u8" = true) := by
  have hnone : ∀ (b : ApiBehavior), b = .networkError ∨ b = .httpError ∨
      b = .malformedJson → extract_playlist_url page b = none := by
    intro b hb
    unfold extract_playlist_url
    split
    · rfl
    · split
      · rfl
      · rcases hb with rfl | rfl | rfl <;> rfl
  refine ⟨fun hb => hnone api (Or.inl hb),
    fun hb => hnone api (Or.inr (Or.inl hb)),
    fun hb => hnone api (Or.inr (Or.inr hb)), ?_, ?_⟩
  · intro data hb hno
    subst hb
    unfold extract_playlist_url
    split
    · rfl
    · split
      · rfl
      · show get_playlist_from_api_data data = none
        rcases hres : get_playlist_from_api_data data with _ | s
        · rfl
        · obtain ⟨he, hm⟩ := api_data_some hres
          rw [hno s hm] at he
          cases he
  · rcases hres : extract_playlist_url page api with _ | s
    · exact Or.inl rfl
    · refine Or.inr ⟨s, rfl, ?_⟩
      unfold extract_playlist_url at hres
      split at hres
      · cases hres
      · split at hres
        · cases hres
        · rcases api with _ | _ | _ | data
          · simp [get_playlist_from_api] at hres
          · simp [get_playlist_from_api] at hres
          · simp [get_playlist_from_api] at hres
          · exact (api_data_some hres).1

/-- C9 witness: a transport error and a no-manifest body both yield
`None`. -/
theorem C9_extract_playlist_url_total_witness :
    extract_playlist_url scenarioPage .networkError = none ∧
    extract_playlist_url scenarioPage (.ok .null) = none :=
  ⟨(C9_extract_playlist_url_total scenarioPage .networkError).1 rfl,
   (C9_extract_playlist_url_total scenarioPage (.ok .null)).2.2.2.1 .null rfl
     (by simp [jStrings])⟩

/-- Helper: an absent key means `jGet` finds nothing. -/
theorem jHasKey_false_get : ∀ (fields : JObj) (k : String),
    jHasKey k fields = false → jGet k fields = none
  | .nil, _, _ => rfl
  | .cons key v rest, k, h => by
    simp only [jHasKey, Bool.or_eq_false_iff] at h
    simp only [jGet, h.1, Bool.false_eq_true, if_false]
    exact jHasKey_false_get rest k h.2

/-- Helper: a present key means `jGet` finds a value. -/
theorem jHasKey_true_get : ∀ (fields : JObj) (k : String),
    jHasKey k fields = true → ∃ v, jGet k fields = some v
  | .nil, _, h => by simp [jHasKey] at h
  | .cons key v rest, k, h => by
    simp only [jGet]
    split
    · exact ⟨v, rfl⟩
    · next hne =>
      simp only [jHasKey, Bool.or_eq_true] at h
      rcases h with h | h
      · exact absurd h hne
      · exact jHasKey_true_get rest k h

/-- Helper: step 1 agrees with the spec's first clause on a well-formed
`url` field. -/
theorem apiStep1_wf {fields : JObj}
    (h : strOrNullOpt (jGet "url" fields) = true) :
    apiStep1 (.obj fields) = some (specTopUrl (.obj fields)) := by
  unfold apiStep1 specTopUrl
  simp only [pyContains]
  cases hk : jHasKey "url" fields
  · rw [jHasKey_false_get fields "url" hk]
  · obtain ⟨v, hv⟩ := jHasKey_true_get fields "url" hk
    rw [hv] at h ⊢
    simp only [pyGetItem, hv]
    rcases v with s | n | b | _ | xs | gs <;> simp [strOrNullOpt] at h ⊢
    · unfold endswithCheck
      simp only [jTruthy]
      cases hE : s.isEmpty
      · simp
      · have : s = "" := (String.isEmpty_iff s).mp hE
        subst this
        simp [show pyEndsWith "" ".m3u8" = false from rfl]
    · rfl

/-- Helper: the `validationResults` loop agrees with the spec's second
clause on a well-formed entry list. -/
theorem vrLoop_wf : ∀ (xs : JArr), wfVrEntries xs = true →
    vrLoop (jarrToList xs) = some (specVrList xs)
  | .nil, _ => rfl
  | .cons v rest, h => by
    rcases v with s | n | b | _ | ys | gs <;> simp [wfVrEntries] at h
    obtain ⟨h1, h2⟩ := h
    simp only [jarrToList, vrLoop, pyContains, pyGetItem, specVrList]
    cases hk : jHasKey "url" gs
    · rw [jHasKey_false_get gs "url" hk]
      simp [vrLoop_wf rest h2]
    · obtain ⟨u, hu⟩ := jHasKey_true_get gs "url" hk
      rw [hu] at h1
      rw [hu]
      rcases u with us | n | b | _ | ys2 | gs2 <;> simp [strOrNullOpt] at h1
      · simp only [endswithCheck, jTruthy]
        cases hE : us.isEmpty
        · cases hEnds : pyEndsWith us ".m3u8" <;>
            simp [hEnds, vrLoop_wf rest h2]
        · have hus : us = "" := (String.isEmpty_iff us).mp hE
          subst hus
          simp [show pyEndsWith "" ".m3u8" = false from rfl,
            vrLoop_wf rest h2]
      · simp [endswithCheck, jTruthy, vrLoop_wf rest h2]

/-- Helper: step 2 agrees with the spec's second clause on a well-formed
response. -/
theorem apiStep2_wf {fields : JObj}
    (h : (match jGet "validationResults" fields with
      | none => true
      | some (.arr xs) => wfVrEntries xs
      | some _ => false) = true) :
    apiStep2 (.obj fields) = some (specValidationResults (.obj fields)) := by
  unfold apiStep2 specValidationResults
  simp only [pyContains]
  cases hk : jHasKey "validationResults" fields
  · rw [jHasKey_false_get fields "validationResults" hk]
  · obtain ⟨vr, hvr⟩ := jHasKey_true_get fields "validationResults" hk
    rw [hvr] at h ⊢
    simp only [pyGetItem, hvr]
    rcases vr with s | n | b | _ | xs | gs <;> simp at h
    simp only [pyIter]
    rw [vrLoop_wf xs h]

/-- C3 counterexample: on `{"url": 5, "x": "a.m3u8"}` the code returns
`None` (the truthy non-string `url` raises, and the exception is caught),
while the claimed priority order finds `"a.m3u8"` by the recursive
search. -/
theorem C3_get_playlist_priority_counterexample :
    get_playlist_from_api_data badUrlData ≠ apiSpecPriority badUrlData := by
  decide

/-- C3 amended: for every JSON response that is an object whose `url`
field (if present) is a string or null, and whose `validationResults`
field (if present) is a list of objects whose `url` fields (if present)
are strings or null, `get_playlist_from_api` returns the first URL by the
priority order: the top-level `url` string ending in `.m3u8`, then the
`url` of each `validationResults` entry in list order, then the first
string ending in `.m3u8` found by the code's depth-first traversal of
object-field values. -/
theorem C3_get_playlist_priority_amended (data : JVal)
    (h : wfResp data = true) :
    get_playlist_from_api_data data = apiAmendedPriority data := by
  rcases data with s | n | b | _ | xs | fields <;> simp [wfResp] at h
  obtain ⟨h1, h2⟩ := h
  unfold get_playlist_from_api_data apiAmendedPriority
  rw [apiStep1_wf h1]
  rcases htop : specTopUrl (.obj fields) with _ | s
  · rw [apiStep2_wf h2]
    rcases hvr : specValidationResults (.obj fields) with _ | s
    · simp
    · simp
  · simp

/-- C3 witness: the spec's nested-response scenario returns the
`validationResults` URL. -/
theorem C3_get_playlist_priority_amended_witness :
    get_playlist_from_api_data nestedApiData = apiAmendedPriority nestedApiData ∧
    apiAmendedPriority nestedApiData = some "https://y/z.m3u8" :=
  ⟨C3_get_playlist_priority_amended nestedApiData (by decide), by decide⟩

/-- Helper: every character of the collapsed list is an underscore or a
non-run input character. -/
theorem collapseGo_mem : ∀ (b : Bool) (l : List Char), ∀ c ∈ collapseGo b l,
    c = '_' ∨ (c ∈ l ∧ spaceUnderscore c = false)
  | _, [], c, hc => by simp [collapseGo] at hc
  | b, a :: rest, c, hc => by
    simp only [collapseGo] at hc
    split at hc
    · split at hc
      · rcases collapseGo_mem true rest c hc with h | ⟨h1, h2⟩
        · exact Or.inl h
        · exact Or.inr ⟨List.mem_cons_of_mem _ h1, h2⟩
      · rcases List.mem_cons.mp hc with rfl | hc'
        · exact Or.inl rfl
        · rcases collapseGo_mem true rest c hc' with h | ⟨h1, h2⟩
          · exact Or.inl h
          · exact Or.inr ⟨List.mem_cons_of_mem _ h1, h2⟩
    · rcases List.mem_cons.mp hc with rfl | hc'
      · next hcls => exact Or.inr ⟨List.mem_cons_self _ _, by
          simpa using hcls⟩
      · rcases collapseGo_mem false rest c hc' with h | ⟨h1, h2⟩
        · exact Or.inl h
        · exact Or.inr ⟨List.mem_cons_of_mem _ h1, h2⟩

/-- Helper: the collapsed list has no two adjacent run characters, and
after a run its head is not a run character. -/
theorem collapseGo_chain : ∀ (l : List Char),
    List.Chain' (fun a b => spaceUnderscore a = false ∨ spaceUnderscore b = false)
      (collapseGo false l) ∧
    List.Chain' (fun a b => spaceUnderscore a = false ∨ spaceUnderscore b = false)
      (collapseGo true l) ∧
    (∀ c, (collapseGo true l).head? = some c → spaceUnderscore c = false)
  | [] => by simp [collapseGo]
  | a :: rest => by
    obtain ⟨ih1, ih2, ih3⟩ := collapseGo_chain rest
    by_cases ha : spaceUnderscore a = true
    · have e1 : collapseGo false (a :: rest) = '_' :: collapseGo true rest := by
        simp [collapseGo, ha]
      have e2 : collapseGo true (a :: rest) = collapseGo true rest := by
        simp [collapseGo, ha]
      rw [e1, e2]
      refine ⟨?_, ih2, ih3⟩
      rw [List.chain'_cons']
      exact ⟨fun y hy => Or.inr (ih3 y hy), ih2⟩
    · rw [Bool.not_eq_true] at ha
      have e1 : collapseGo false (a :: rest) = a :: collapseGo false rest := by
        simp [collapseGo, ha]
      have e2 : collapseGo true (a :: rest) = a :: collapseGo false rest := by
        simp [collapseGo, ha]
      rw [e1, e2]
      have hc : List.Chain' (fun a b =>
          spaceUnderscore a = false ∨ spaceUnderscore b = false)
          (a :: collapseGo false rest) := by
        rw [List.chain'_cons']
        exact ⟨fun y _ => Or.inl ha, ih1⟩
      exact ⟨hc, hc, fun c hc' => by
        simp only [List.head?_cons, Option.some.injEq] at hc'
        exact hc' ▸ ha⟩

/-- Helper: collapsing is the identity on a space-free list with no two
adjacent run characters. -/
theorem collapseGo_eq_self : ∀ (l : List Char),
    (∀ c ∈ l, c ≠ ' ') →
    List.Chain' (fun a b => spaceUnderscore a = false ∨ spaceUnderscore b = false) l →
    collapseGo false l = l ∧
    ((∀ c, l.head? = some c → spaceUnderscore c = false) → collapseGo true l = l)
  | [] => fun _ _ => ⟨rfl, fun _ => rfl⟩
  | a :: rest => by
    intro hsp hch
    have hch' := (List.chain'_cons'.mp hch).2
    have hbd := (List.chain'_cons'.mp hch).1
    have ihsp : ∀ c ∈ rest, c ≠ ' ' := fun c hc => hsp c (List.mem_cons_of_mem _ hc)
    obtain ⟨ih1, ih2⟩ := collapseGo_eq_self rest ihsp hch'
    by_cases ha : spaceUnderscore a = true
    · have ha' : a = '_' := by
        rcases Bool.or_eq_true _ _ |>.mp ha with h | h
        · exact absurd (by simpa using h) (hsp a (List.mem_cons_self _ _))
        · simpa using h
      subst ha'
      constructor
      · have hrest : collapseGo true rest = rest := by
          apply ih2
          intro c hc
          rcases hbd c hc with h | h
          · simp [spaceUnderscore] at h
          · exact h
        simp [collapseGo, spaceUnderscore, hrest]
      · intro hh
        have := hh '_' rfl
        simp [spaceUnderscore] at this
    · rw [Bool.not_eq_true] at ha
      constructor
      · simp only [collapseGo, ha, Bool.false_eq_true, if_false, ih1]
      · intro _
        simp only [collapseGo, ha, Bool.false_eq_true, if_false, ih1]

/-- Helper: the head of a `dropWhile` result fails the predicate. -/
theorem head_dropWhile_not (p : Char → Bool) : ∀ (l : List Char) (c : Char),
    (l.dropWhile p).head? = some c → p c = false
  | [], c, h => by simp at h
  | a :: rest, c, h => by
    rw [List.dropWhile_cons] at h
    split at h
    · exact head_dropWhile_not p rest c h
    · next ha =>
      simp only [List.head?_cons, Option.some.injEq] at h
      subst h
      simpa using ha

/-- Helper: stripping returns a subset of the input. -/
theorem pyStripChars_subset (p : Char → Bool) (l : List Char) :
    ∀ c ∈ pyStripChars p l, c ∈ l := by
  intro c hc
  unfold pyStripChars at hc
  rw [List.mem_reverse] at hc
  have h1 := (List.dropWhile_suffix p
    (l := (l.dropWhile p).reverse)).subset hc
  rw [List.mem_reverse] at h1
  exact (List.dropWhile_suffix p).subset h1

/-- Helper: the strip result is an infix of the input. -/
theorem pyStripChars_isInfix (p : Char → Bool) (l : List Char) :
    pyStripChars p l <:+: l := by
  unfold pyStripChars
  have h1 : (((l.dropWhile p).reverse.dropWhile p).reverse) <+: l.dropWhile p := by
    rw [← List.reverse_suffix]
    simpa using List.dropWhile_suffix p (l := (l.dropWhile p).reverse)
  exact h1.isInfix.trans (List.dropWhile_suffix p).isInfix

/-- Helper: the head of the strip result fails the predicate. -/
theorem pyStripChars_head (p : Char → Bool) (l : List Char) :
    ∀ c, (pyStripChars p l).head? = some c → p c = false := by
  intro c hc
  have hpre : pyStripChars p l <+: l.dropWhile p := by
    unfold pyStripChars
    rw [← List.reverse_suffix]
    simpa using List.dropWhile_suffix p (l := (l.dropWhile p).reverse)
  obtain ⟨t, ht⟩ := hpre
  rcases he : pyStripChars p l with _ | ⟨c0, rest⟩
  · rw [he] at hc
    cases hc
  · rw [he] at hc ht
    simp only [List.head?_cons, Option.some.injEq] at hc
    apply head_dropWhile_not p l c
    rw [← ht]
    simp [hc]

/-- Helper: the last element of the strip result fails the predicate. -/
theorem pyStripChars_last (p : Char → Bool) (l : List Char) :
    ∀ c, (pyStripChars p l).getLast? = some c → p c = false := by
  intro c hc
  rw [← List.head?_reverse] at hc
  unfold pyStripChars at hc
  rw [List.reverse_reverse] at hc
  exact head_dropWhile_not p _ c hc

/-- Helper: `dropWhile` is the identity when the head fails the
predicate. -/
theorem dropWhile_eq_self_of_head (p : Char → Bool) (l : List Char)
    (h : ∀ c, l.head? = some c → p c = false) : l.dropWhile p = l := by
  rcases l with _ | ⟨a, rest⟩
  · rfl
  · rw [List.dropWhile_cons, h a rfl]
    simp

/-- Helper: stripping is the identity when both ends fail the
predicate. -/
theorem pyStripChars_eq_self (p : Char → Bool) (l : List Char)
    (hh : ∀ c, l.head? = some c → p c = false)
    (hl : ∀ c, l.getLast? = some c → p c = false) :
    pyStripChars p l = l := by
  unfold pyStripChars
  rw [dropWhile_eq_self_of_head p l hh]
  rw [dropWhile_eq_self_of_head p l.reverse
    (fun c hc => hl c (by rwa [List.head?_reverse] at hc))]
  exact List.reverse_reverse l

/-- Helper: collapsing distributes over a trailing `.mp3`. -/
theorem collapseGo_append_mp3 : ∀ (b : Bool) (u : List Char),
    collapseGo b (u ++ ['.', 'm', 'p', '3']) =
      collapseGo b u ++ ['.', 'm', 'p', '3']
  | b, [] => by cases b <;> rfl
  | b, a :: u => by
    by_cases ha : spaceUnderscore a = true
    · cases b <;> simp [collapseGo, ha, collapseGo_append_mp3 true u]
    · rw [Bool.not_eq_true] at ha
      cases b <;> simp [collapseGo, ha, collapseGo_append_mp3 false u]

/-- Helper: `dropWhile` over an append either stops inside the first part
(non-trivially) or skips it entirely. -/
theorem dropWhile_append_cases (p : Char → Bool) : ∀ (u m : List Char),
    (u.dropWhile p ≠ [] ∧ (u ++ m).dropWhile p = u.dropWhile p ++ m) ∨
    (u.dropWhile p = [] ∧ (u ++ m).dropWhile p = m.dropWhile p)
  | [], m => Or.inr ⟨rfl, rfl⟩
  | a :: u, m => by
    by_cases ha : p a = true
    · rcases dropWhile_append_cases p u m with ⟨h1, h2⟩ | ⟨h1, h2⟩
      · exact Or.inl ⟨by simpa [List.dropWhile_cons, ha] using h1,
          by simpa [List.dropWhile_cons, ha] using h2⟩
      · exact Or.inr ⟨by simpa [List.dropWhile_cons, ha] using h1,
          by simpa [List.dropWhile_cons, ha] using h2⟩
    · rw [Bool.not_eq_true] at ha
      exact Or.inl ⟨by simp [List.dropWhile_cons, ha],
        by simp [List.dropWhile_cons, ha]⟩

/-- Helper: the last-dot split of a list ending in `.mp3`. -/
theorem rsplitExt_mp3 (v : List Char) :
    rsplitExt (v ++ ['.', 'm', 'p', '3']) = some (v, ['m', 'p', '3']) := by
  unfold rsplitExt
  dsimp only
  have hrev : (v ++ ['.', 'm', 'p', '3']).reverse =
      '3' :: 'p' :: 'm' :: '.' :: v.reverse := by
    simp
  rw [hrev]
  have htake : List.takeWhile (· ≠ '.') ('3' :: 'p' :: 'm' :: '.' :: v.reverse) =
      ['3', 'p', 'm'] := by
    simp [List.takeWhile]
  rw [htake]
  have hlen : (['3', 'p', 'm'] : List Char).length = 3 := rfl
  rw [hlen]
  have hne : ¬(3 = ('3' :: 'p' :: 'm' :: '.' :: v.reverse).length) := by
    simp
  rw [if_neg hne]
  have hdrop : ('3' :: 'p' :: 'm' :: '.' :: v.reverse).drop (3 + 1) = v.reverse := rfl
  rw [hdrop]
  simp

/-- Helper: the trailing strip is the identity on a list ending in
`.mp3`. -/
theorem backstrip_mp3 (v : List Char) :
    ((v ++ ['.', 'm', 'p', '3']).reverse.dropWhile stripSpaceDot).reverse =
      v ++ ['.', 'm', 'p', '3'] := by
  have hrev : (v ++ ['.', 'm', 'p', '3']).reverse =
      '3' :: 'p' :: 'm' :: '.' :: v.reverse := by
    simp
  rw [hrev, List.dropWhile_cons]
  simp [stripSpaceDot]

/-- Helper: sanitisation is the identity on an already-sanitised list: no
invalid, control or space characters, no two adjacent run characters,
ends that are not spaces or dots, non-empty, and within the length
bound. -/
theorem sanitizeChars_fixed (z : List Char)
    (hinv : ∀ c ∈ z, invalidFilenameChar c = false)
    (hctl : ∀ c ∈ z, controlChar c = false)
    (hsp : ∀ c ∈ z, c ≠ ' ')
    (hchain : List.Chain'
      (fun a b => spaceUnderscore a = false ∨ spaceUnderscore b = false) z)
    (hhead : ∀ c, z.head? = some c → stripSpaceDot c = false)
    (hlast : ∀ c, z.getLast? = some c → stripSpaceDot c = false)
    (hne : z ≠ [])
    (hlen : z.length ≤ 255) :
    sanitizeChars 255 z = z := by
  unfold sanitizeChars
  dsimp only
  have e1 : z.map (fun c => if invalidFilenameChar c then '_' else c) = z := by
    have := List.map_congr_left (l := z)
      (f := fun c => if invalidFilenameChar c then '_' else c) (g := id)
      (fun c hc => by simp [hinv c hc])
    simpa using this
  rw [e1]
  have e2 : z.filter (fun c => !controlChar c) = z :=
    List.filter_eq_self.mpr (fun c hc => by simp [hctl c hc])
  rw [e2]
  have e3 : collapseGo false z = z := (collapseGo_eq_self z hsp hchain).1
  rw [e3]
  have e4 : pyStripChars stripSpaceDot z = z :=
    pyStripChars_eq_self stripSpaceDot z hhead hlast
  rw [e4]
  have e5 : z.isEmpty = false := by
    rcases z with _ | _
    · exact absurd rfl hne
    · rfl
  rw [e5]
  simp only [Bool.false_eq_true, if_false]
  unfold truncateFilename
  rw [if_pos hlen]

/-- Helper: one sanitisation pass over a list ending in `.mp3` is a fixed
point of a second pass, and its output has no invalid filename
characters. -/
theorem sanitizeChars_mp3 (u0 : List Char) :
    sanitizeChars 255 (sanitizeChars 255 (u0 ++ ['.', 'm', 'p', '3'])) =
      sanitizeChars 255 (u0 ++ ['.', 'm', 'p', '3']) ∧
    ∀ c ∈ sanitizeChars 255 (u0 ++ ['.', 'm', 'p', '3']),
      invalidFilenameChar c = false := by
  have e1 : (u0 ++ ['.', 'm', 'p', '3']).map
      (fun c => if invalidFilenameChar c then '_' else c) =
      (u0.map (fun c => if invalidFilenameChar c then '_' else c)) ++
        ['.', 'm', 'p', '3'] := by
    rw [List.map_append]
    rfl
  set u1 := u0.map (fun c => if invalidFilenameChar c then '_' else c) with hu1
  have e2 : (u1 ++ ['.', 'm', 'p', '3']).filter (fun c => !controlChar c) =
      (u1.filter (fun c => !controlChar c)) ++ ['.', 'm', 'p', '3'] := by
    rw [List.filter_append]
    rfl
  set u2 := u1.filter (fun c => !controlChar c) with hu2
  -- character facts about the collapsed list
  have hinv3 : ∀ c ∈ collapseGo false (u2 ++ ['.', 'm', 'p', '3']),
      invalidFilenameChar c = false := by
    intro c hc
    rcases collapseGo_mem false _ c hc with rfl | ⟨h1, _⟩
    · rfl
    · rcases List.mem_append.mp h1 with h | h
      · have hc1 : c ∈ u1 := List.mem_of_mem_filter h
        rcases List.mem_map.mp hc1 with ⟨a, _, rfl⟩
        by_cases hia : invalidFilenameChar a = true
        · rw [if_pos hia]
          rfl
        · rw [Bool.not_eq_true] at hia
          rw [if_neg (by simp [hia])]
          exact hia
      · fin_cases h <;> rfl
  have hctl3 : ∀ c ∈ collapseGo false (u2 ++ ['.', 'm', 'p', '3']),
      controlChar c = false := by
    intro c hc
    rcases collapseGo_mem false _ c hc with rfl | ⟨h1, _⟩
    · rfl
    · rcases List.mem_append.mp h1 with h | h
      · have := List.of_mem_filter h
        simpa using this
      · fin_cases h <;> rfl
  have hsp3 : ∀ c ∈ collapseGo false (u2 ++ ['.', 'm', 'p', '3']),
      c ≠ ' ' := by
    intro c hc
    rcases collapseGo_mem false _ c hc with rfl | ⟨_, h2⟩
    · decide
    · intro hsp
      subst hsp
      simp [spaceUnderscore] at h2
  have hch3 := (collapseGo_chain (u2 ++ ['.', 'm', 'p', '3'])).1
  -- facts about the stripped list
  have hinv4 : ∀ c ∈ pyStripChars stripSpaceDot
      (collapseGo false (u2 ++ ['.', 'm', 'p', '3'])),
      invalidFilenameChar c = false :=
    fun c hc => hinv3 c (pyStripChars_subset _ _ c hc)
  have hctl4 : ∀ c ∈ pyStripChars stripSpaceDot
      (collapseGo false (u2 ++ ['.', 'm', 'p', '3'])),
      controlChar c = false :=
    fun c hc => hctl3 c (pyStripChars_subset _ _ c hc)
  have hsp4 : ∀ c ∈ pyStripChars stripSpaceDot
      (collapseGo false (u2 ++ ['.', 'm', 'p', '3'])),
      c ≠ ' ' :=
    fun c hc => hsp3 c (pyStripChars_subset _ _ c hc)
  have hch4 : List.Chain'
      (fun a b => spaceUnderscore a = false ∨ spaceUnderscore b = false)
      (pyStripChars stripSpaceDot
        (collapseGo false (u2 ++ ['.', 'm', 'p', '3']))) :=
    hch3.infix (pyStripChars_isInfix _ _)
  have hh4 := pyStripChars_head stripSpaceDot
    (collapseGo false (u2 ++ ['.', 'm', 'p', '3']))
  have hl4 := pyStripChars_last stripSpaceDot
    (collapseGo false (u2 ++ ['.', 'm', 'p', '3']))
  set u3 := collapseGo false u2 with hu3
  have e3 : collapseGo false (u2 ++ ['.', 'm', 'p', '3']) =
      u3 ++ ['.', 'm', 'p', '3'] := collapseGo_append_mp3 false u2
  rcases dropWhile_append_cases stripSpaceDot u3 ['.', 'm', 'p', '3'] with
    ⟨hwne, hfront⟩ | ⟨_, hfront⟩
  · -- the front strip stops inside the stem
    set w := u3.dropWhile stripSpaceDot with hw
    have hy : pyStripChars stripSpaceDot
        (collapseGo false (u2 ++ ['.', 'm', 'p', '3'])) =
        w ++ ['.', 'm', 'p', '3'] := by
      rw [e3]
      unfold pyStripChars
      rw [hfront]
      exact backstrip_mp3 w
    have hyE : (pyStripChars stripSpaceDot
        (collapseGo false (u2 ++ ['.', 'm', 'p', '3']))).isEmpty = false := by
      rw [hy]
      simp [List.isEmpty_iff]
    have hsan : sanitizeChars 255 (u0 ++ ['.', 'm', 'p', '3']) =
        truncateFilename 255 (pyStripChars stripSpaceDot
          (collapseGo false (u2 ++ ['.', 'm', 'p', '3']))) := by
      unfold sanitizeChars
      dsimp only
      rw [e1, e2, hyE]
      simp
    obtain ⟨c0, w', hw0⟩ := List.exists_cons_of_ne_nil hwne
    by_cases hlen : (w ++ ['.', 'm', 'p', '3']).length ≤ 255
    · -- no truncation
      have htr : truncateFilename 255 (pyStripChars stripSpaceDot
          (collapseGo false (u2 ++ ['.', 'm', 'p', '3']))) =
          pyStripChars stripSpaceDot
            (collapseGo false (u2 ++ ['.', 'm', 'p', '3'])) := by
        unfold truncateFilename
        rw [if_pos (by rw [hy]; exact hlen)]
      rw [hsan, htr]
      refine ⟨sanitizeChars_fixed _ hinv4 hctl4 hsp4 hch4 hh4 hl4 ?_ ?_, hinv4⟩
      · rw [hy]
        simp
      · rw [hy]
        exact hlen
    · -- truncation with the valid `.mp3` extension
      have htr : truncateFilename 255 (pyStripChars stripSpaceDot
          (collapseGo false (u2 ++ ['.', 'm', 'p', '3']))) =
          w.take 251 ++ ['.', 'm', 'p', '3'] := by
        rw [hy]
        unfold truncateFilename
        rw [if_neg hlen, rsplitExt_mp3 w]
        norm_num
      have hwlen : 252 ≤ w.length := by
        simp only [List.length_append] at hlen
        simp only [List.length_cons, List.length_nil] at hlen
        omega
      have hsub : ∀ c ∈ w.take 251 ++ ['.', 'm', 'p', '3'],
          c ∈ w ++ ['.', 'm', 'p', '3'] := by
        intro c hc
        rcases List.mem_append.mp hc with h | h
        · exact List.mem_append.mpr (Or.inl (List.take_subset _ _ h))
        · exact List.mem_append.mpr (Or.inr h)
      have hz_of_y : ∀ c ∈ w.take 251 ++ ['.', 'm', 'p', '3'],
          c ∈ pyStripChars stripSpaceDot
            (collapseGo false (u2 ++ ['.', 'm', 'p', '3'])) := by
        intro c hc
        rw [hy]
        exact hsub c hc
      have hinvz : ∀ c ∈ w.take 251 ++ ['.', 'm', 'p', '3'],
          invalidFilenameChar c = false :=
        fun c hc => hinv4 c (hz_of_y c hc)
      have hctlz : ∀ c ∈ w.take 251 ++ ['.', 'm', 'p', '3'],
          controlChar c = false :=
        fun c hc => hctl4 c (hz_of_y c hc)
      have hspz : ∀ c ∈ w.take 251 ++ ['.', 'm', 'p', '3'], c ≠ ' ' :=
        fun c hc => hsp4 c (hz_of_y c hc)
      have hchz : List.Chain'
          (fun a b => spaceUnderscore a = false ∨ spaceUnderscore b = false)
          (w.take 251 ++ ['.', 'm', 'p', '3']) := by
        rw [List.chain'_append]
        refine ⟨?_, ?_, ?_⟩
        · have hinf : w.take 251 <:+: pyStripChars stripSpaceDot
              (collapseGo false (u2 ++ ['.', 'm', 'p', '3'])) := by
            rw [hy]
            exact ((List.take_prefix 251 w).trans ⟨['.', 'm', 'p', '3'], rfl⟩).isInfix
          exact hch4.infix hinf
        · simp [List.chain'_cons, spaceUnderscore]
        · intro x _ y hy'
          simp only [List.head?_cons, Option.mem_def, Option.some.injEq] at hy'
          subst hy'
          exact Or.inr rfl
      have hheadz : ∀ c, (w.take 251 ++ ['.', 'm', 'p', '3']).head? = some c →
          stripSpaceDot c = false := by
        intro c hc
        rw [hw0] at hc
        have htk : List.take 251 (c0 :: w') = c0 :: List.take 250 w' := rfl
        rw [htk] at hc
        simp only [List.cons_append, List.head?_cons, Option.some.injEq] at hc
        subst hc
        apply hh4
        rw [hy, hw0]
        simp
      have hlastz : ∀ c, (w.take 251 ++ ['.', 'm', 'p', '3']).getLast? = some c →
          stripSpaceDot c = false := by
        intro c hc
        rw [← List.head?_reverse] at hc
        rw [List.reverse_append] at hc
        simp only [List.reverse_cons, List.reverse_nil, List.nil_append,
          List.cons_append, List.head?_cons, Option.some.injEq] at hc
        subst hc
        rfl
      have hnez : w.take 251 ++ ['.', 'm', 'p', '3'] ≠ [] := by
        simp
      have hlenz : (w.take 251 ++ ['.', 'm', 'p', '3']).length ≤ 255 := by
        simp only [List.length_append, List.length_take]
        simp only [List.length_cons, List.length_nil]
        omega
      rw [hsan, htr]
      exact ⟨sanitizeChars_fixed _ hinvz hctlz hspz hchz hheadz hlastz hnez hlenz,
        hinvz⟩
  · -- the front strip consumes the whole stem and the dot
    have hy : pyStripChars stripSpaceDot
        (collapseGo false (u2 ++ ['.', 'm', 'p', '3'])) = ['m', 'p', '3'] := by
      rw [e3]
      unfold pyStripChars
      rw [hfront]
      rfl
    have hyE : (pyStripChars stripSpaceDot
        (collapseGo false (u2 ++ ['.', 'm', 'p', '3']))).isEmpty = false := by
      rw [hy]
      rfl
    have hsan : sanitizeChars 255 (u0 ++ ['.', 'm', 'p', '3']) =
        truncateFilename 255 (pyStripChars stripSpaceDot
          (collapseGo false (u2 ++ ['.', 'm', 'p', '3']))) := by
      unfold sanitizeChars
      dsimp only
      rw [e1, e2, hyE]
      simp
    have htr : truncateFilename 255 (pyStripChars stripSpaceDot
        (collapseGo false (u2 ++ ['.', 'm', 'p', '3']))) = ['m', 'p', '3'] := by
      rw [hy]
      rfl
    rw [hsan, htr]
    exact ⟨by decide, by decide⟩

/-- C6: sanitisation is stable on formatted audiobook filenames (applying
`sanitize_filename` to the output of `format_audiobook_filename` returns
it unchanged, i.e. sanitising twice equals sanitising once, since the
formatter already sanitises), and the result contains none of the invalid
characters. -/
theorem C6_sanitize_roundtrip (title author : String) :
    sanitize_filename (format_audiobook_filename title author) =
      format_audiobook_filename title author ∧
    (format_audiobook_filename title author).data.all
      (fun c => !invalidFilenameChar c) = true := by
  unfold format_audiobook_filename sanitize_filename
  dsimp only
  have hdata : ((if (pyStrip author).isEmpty then "Unknown Author"
        else pyStrip author) ++ " - " ++
      (if (pyStrip title).isEmpty then "Unknown Title" else pyStrip title) ++
      "." ++ "mp3").data =
      ((if (pyStrip author).isEmpty then "Unknown Author"
          else pyStrip author).data ++ " - ".data ++
        (if (pyStrip title).isEmpty then "Unknown Title"
          else pyStrip title).data) ++ ['.', 'm', 'p', '3'] := by
    simp only [String.data_append]
    simp [List.append_assoc]
  rw [hdata]
  have key := sanitizeChars_mp3
    ((if (pyStrip author).isEmpty then "Unknown Author"
        else pyStrip author).data ++ " - ".data ++
      (if (pyStrip title).isEmpty then "Unknown Title"
        else pyStrip title).data)
  constructor
  · exact congrArg String.mk key.1
  · exact List.all_eq_true.mpr (fun c hc => by simp [key.2 c hc])

/-- C5 counterexample: the generated filename is not
`"Jane Doe - Title X.mp3"`; sanitisation replaces every space with an
underscore (`re.sub(r'[ _]+', '_', ·)` matches single spaces too). -/
theorem C5_happy_path_counterexample :
    sanitize_filename (format_audiobook_filename "Title X" "Jane Doe" "mp3") ≠
      "Jane Doe - Title X.mp3" := by
  decide

/-- C5 amended: on the happy-path page the extracted record has title
`Title X`, author `Jane Doe` and the resolved playlist URL, and the
generated target filename is `"Jane_Doe_-_Title_X.mp3"`. -/
theorem C5_happy_path_amended :
    extract_metadata scenarioPage "https://page" scenarioApi =
      some { title := "Title X", author := "Jane Doe", url := "https://page",
             playlist_url := some "https://x/master.m3u8" } ∧
    sanitize_filename (format_audiobook_filename "Title X" "Jane Doe" "mp3") =
      "Jane_Doe_-_Title_X.mp3" :=
  ⟨rfl, rfl⟩

end Ohdio
